import Mathlib

/-!
Verification of the AutoCoin trading bot core against its specification.

Shallow embedding conventions: Python floats are modelled as `ℚ`; Python
dicts keyed by strings are association lists `List (String × α)` with
unique keys; wall-clock instants (`time.time()`) are explicit `ℚ`
parameters; fallible lookups return `Option`.  Each definition mirrors the
Python function named in its doc comment.
-/

namespace AutoCoin

/-- Strategy signal dict: `{"action": ..., "price": ..., "volume": ..., "reason": ...}`
as returned by `_process_tick` and the mixin methods. -/
structure Signal where
  action : String
  price : Option ℚ := none
  volume : Option ℚ := none
  reason : String := ""
  deriving Repr, DecidableEq

/-- `src/strategy/base_strategy.py` `PositionType`. -/
inductive PositionType where
  | none
  | long
  | short
  deriving Repr, DecidableEq

/-- `src/strategy/base_strategy.py` `Position` dataclass. -/
structure Position where
  symbol : String
  position_type : PositionType
  entry_price : ℚ
  volume : ℚ
  entry_time : ℚ
  unrealized_pnl : ℚ := 0
  realized_pnl : ℚ := 0
  deriving Repr, DecidableEq

/-- `src/strategy/base_strategy.py` `OrderFill` dataclass. -/
structure OrderFill where
  symbol : String
  side : String
  price : ℚ
  volume : ℚ
  timestamp : ℚ
  order_id : String
  deriving Repr, DecidableEq

/-- The fields of `BaseStrategy` touched by position bookkeeping
(`__init__`, `_on_buy_fill`, `_on_sell_fill`, `_update_unrealized_pnl`,
`on_tick`, `reset`). -/
structure StrategyState where
  symbol : String
  position : Position
  is_initialized : Bool
  last_tick_time : ℚ
  tick_count : ℕ
  total_trades : ℕ
  winning_trades : ℕ
  total_pnl : ℚ
  deriving Repr, DecidableEq

/-- `BaseStrategy.__init__`: fresh strategy state for a symbol. -/
def initStrategy (symbol : String) : StrategyState where
  symbol := symbol
  position :=
    { symbol := symbol
      position_type := PositionType.none
      entry_price := 0
      volume := 0
      entry_time := 0 }
  is_initialized := false
  last_tick_time := 0
  tick_count := 0
  total_trades := 0
  winning_trades := 0
  total_pnl := 0

/-- `BaseStrategy._on_buy_fill` (without the `_on_position_opened` hook,
which touches no `Position` field in the base class). -/
def onBuyFill (s : StrategyState) (fill : OrderFill) : StrategyState :=
  { s with position :=
      { s.position with
          position_type := PositionType.long
          entry_price := fill.price
          volume := fill.volume
          entry_time := fill.timestamp
          unrealized_pnl := 0 } }

/-- `BaseStrategy._on_sell_fill`: realize pnl using the held
`position.volume` while LONG, then reset the position to NONE. -/
def onSellFill (s : StrategyState) (fill : OrderFill) : StrategyState :=
  let s :=
    if s.position.position_type = PositionType.long then
      let pnl := (fill.price - s.position.entry_price) * s.position.volume
      { s with
          position := { s.position with realized_pnl := s.position.realized_pnl + pnl }
          total_pnl := s.total_pnl + pnl
          winning_trades := if 0 < pnl then s.winning_trades + 1 else s.winning_trades }
    else s
  { s with position :=
      { s.position with
          position_type := PositionType.none
          entry_price := 0
          volume := 0
          unrealized_pnl := 0 } }

/-- `BaseStrategy.on_order_fill`: bump `total_trades`, then dispatch on side. -/
def onOrderFill (s : StrategyState) (fill : OrderFill) : StrategyState :=
  let s := { s with total_trades := s.total_trades + 1 }
  if fill.side = "buy" then onBuyFill s fill else onSellFill s fill

/-- `BaseStrategy._update_unrealized_pnl`. -/
def updateUnrealizedPnl (s : StrategyState) (current_price : ℚ) : StrategyState :=
  if s.position.position_type = PositionType.long then
    { s with position :=
        { s.position with
            unrealized_pnl := (current_price - s.position.entry_price) * s.position.volume } }
  else s

/-- The position-related part of `BaseStrategy.on_tick`: when initialized,
record tick time and count and recompute the unrealized pnl from
`tick.get("trade_price", 0.0)`.  The strategy-specific `_process_tick`
does not write any `Position` field. -/
def baseOnTick (s : StrategyState) (now : ℚ) (trade_price : Option ℚ) : StrategyState :=
  if s.is_initialized = false then s
  else
    updateUnrealizedPnl
      { s with last_tick_time := now, tick_count := s.tick_count + 1 }
      (trade_price.getD 0)

/-- `BaseStrategy.reset`. -/
def resetStrategy (s : StrategyState) : StrategyState :=
  { s with
      position :=
        { symbol := s.symbol
          position_type := PositionType.none
          entry_price := 0
          volume := 0
          entry_time := 0 }
      is_initialized := false
      tick_count := 0
      total_trades := 0
      winning_trades := 0
      total_pnl := 0 }

/-- Spec invariant on `Position`: `type=NONE ⇒ entry_price=0 ∧ volume=0`. -/
def positionInv (p : Position) : Prop :=
  p.position_type = PositionType.none → p.entry_price = 0 ∧ p.volume = 0

instance (p : Position) : Decidable (positionInv p) := by
  unfold positionInv
  infer_instance

/-- `src/trading/risk_manager.py` `RiskManager.allow_order`.
`daily_loss_limit_krw` and `max_coin_ratio` come from `config/risk_config.py`;
that file is not part of the repository's sources, so (modelled from the
spec: `DAILY_LOSS_LIMIT_KRW` and `MAX_COIN_RATIO` of the missing
`config.risk_config`) they are taken here as parameters, as is
`MAX_CONCURRENT_POSITIONS` from `config/strategy_config.py`.
`max_position_krw` is the per-symbol constructor argument. -/
def allow_order (daily_loss_limit_krw max_coin_ratio : ℚ)
    (max_concurrent_positions : ℕ) (max_position_krw : ℚ)
    (krw_balance coin_ratio realized_daily_pnl : ℚ) (active_positions : ℕ) : Bool :=
  if realized_daily_pnl ≤ -daily_loss_limit_krw then false
  else if max_coin_ratio ≤ coin_ratio then false
  else if max_concurrent_positions ≤ active_positions then false
  else if krw_balance < 5000 then false
  else if krw_balance < max_position_krw * (1 / 10) then false
  else true

/-- Unified market tick as seen by a strategy: the keys of the message
dict that `ScalpingStrategy.on_tick` and `_process_tick` read. -/
structure Tick where
  type_ : String := ""
  trade_price : Option ℚ := none
  best_bid : Option ℚ := none
  best_ask : Option ℚ := none
  deriving Repr, DecidableEq

/-- The fields of `ScalpingStrategy` (`src/strategy/scalping_strategy.py`)
on top of the base-strategy state.  `prices` is the `deque(maxlen=window)`. -/
structure ScalpingState where
  base : StrategyState
  window : ℕ
  take_profit_pct : ℚ
  stop_loss_pct : ℚ
  prices : List ℚ
  max_spread : ℚ
  best_bid : Option ℚ := none
  best_ask : Option ℚ := none
  deriving Repr, DecidableEq

/-- `ScalpingStrategy.__init__` (base state plus scalping fields);
`best_bid`/`best_ask` start as `None`. -/
def initScalping (symbol : String) (window : ℕ) (take_profit_pct stop_loss_pct max_spread : ℚ) :
    ScalpingState where
  base := initStrategy symbol
  window := window
  take_profit_pct := take_profit_pct
  stop_loss_pct := stop_loss_pct
  prices := []
  max_spread := max_spread
  best_bid := none
  best_ask := none

/-- `deque(maxlen=w).append`: push right, dropping from the left beyond `w`. -/
def dequePush (w : ℕ) (xs : List ℚ) (x : ℚ) : List ℚ :=
  let ys := xs ++ [x]
  if w < ys.length then ys.drop (ys.length - w) else ys

/-- `ScalpingStrategy._should_enter_long`: enter when the current price is
at or below the minimum of the last `window` prices (the window must be
full).  The `none` case of `minimum?` is unreachable when `window ≥ 1`. -/
def should_enter_long (s : ScalpingState) (current_price : ℚ) : Bool :=
  if s.prices.length < s.window then false
  else
    match s.prices.min? with
    | some m => current_price ≤ m
    | none => false

/-- `ScalpingStrategy._should_exit_long`. -/
def should_exit_long (s : ScalpingState) (current_price : ℚ) : Bool :=
  if s.base.position.entry_price ≤ 0 then false
  else
    let gain_pct := (current_price - s.base.position.entry_price) / s.base.position.entry_price * 100
    s.take_profit_pct ≤ gain_pct ∨ gain_pct ≤ -s.stop_loss_pct

/-- `ScalpingStrategy._process_tick`. -/
def scalpingProcessTick (s : ScalpingState) (tick : Tick) : ScalpingState × Signal :=
  match tick.trade_price with
  | none => (s, { action := "none" })
  | some price =>
    let s := { s with prices := dequePush s.window s.prices price }
    if s.base.position.position_type = PositionType.none then
      if should_enter_long s price then
        (s, { action := "buy", price := some price, reason := "price reversal entry" })
      else (s, { action := "none" })
    else if s.base.position.position_type = PositionType.long then
      if should_exit_long s price then
        (s, { action := "sell", price := some price, reason := "take profit or stop loss" })
      else (s, { action := "none" })
    else (s, { action := "none" })

/-- `ScalpingStrategy.on_tick` override: store orderbook quotes and stop;
skip while either quote is unset or the spread is too wide; otherwise run
`BaseStrategy.on_tick`, i.e. the bookkeeping of `baseOnTick` followed by
`_process_tick`. -/
def scalpingOnTick (s : ScalpingState) (now : ℚ) (tick : Tick) : ScalpingState × Signal :=
  if tick.type_ = "orderbook" then
    ({ s with best_bid := tick.best_bid, best_ask := tick.best_ask }, { action := "none" })
  else
    match s.best_bid, s.best_ask with
    | some bb, some ba =>
      if s.max_spread < ba - bb then (s, { action := "none" })
      else if s.base.is_initialized = false then (s, { action := "none" })
      else scalpingProcessTick { s with base := baseOnTick s.base now tick.trade_price } tick
    | _, _ => (s, { action := "none" })

/-- Run `scalpingOnTick` over a tick sequence, collecting emitted signals. -/
def scalpingRun (s : ScalpingState) (now : ℚ) (ticks : List Tick) : ScalpingState × List Signal :=
  ticks.foldl
    (fun acc t =>
      let r := scalpingOnTick acc.1 now t
      (r.1, acc.2 ++ [r.2]))
    (s, [])

/-- `src/strategy/trailing_stop_mixin.py` `PartialPosition` dataclass. -/
structure PartialPosition where
  volume : ℚ
  entry_price : ℚ
  entry_time : ℚ
  is_closed : Bool := false
  close_price : ℚ := 0
  close_time : ℚ := 0
  deriving Repr, DecidableEq

/-- `TrailingStopMixin.__init__` configuration kwargs. -/
structure TrailConfig where
  trailing_stop_enabled : Bool := false
  trailing_stop_pct : ℚ := 1
  trailing_activation_pct : ℚ := 1 / 2
  partial_close_enabled : Bool := false
  partial_close_levels : List ℚ := [1 / 2, 1, 3 / 2]
  partial_close_ratios : List ℚ := [3 / 10, 3 / 10, 2 / 5]
  deriving Repr, DecidableEq

/-- `TrailingStopMixin` mutable state. -/
structure TrailState where
  highest_price : ℚ := 0
  trailing_stop_price : ℚ := 0
  trailing_active : Bool := false
  partial_positions : List PartialPosition := []
  next_partial_level_idx : ℕ := 0
  remaining_volume : ℚ := 0
  deriving Repr, DecidableEq

/-- `TrailingStopMixin.setup_position_tracking` applied to the freshly
reset state (as after `__init__` or `reset_position_tracking`), with
`_setup_partial_positions` inlined; `now` stands for `time.time()`. -/
def setup_position_tracking (cfg : TrailConfig) (now entry_price volume : ℚ) : TrailState :=
  let s : TrailState :=
    { highest_price := entry_price
      trailing_stop_price := 0
      trailing_active := false
      partial_positions := []
      next_partial_level_idx := 0
      remaining_volume := 0 }
  if cfg.partial_close_enabled then
    { s with
        partial_positions :=
          cfg.partial_close_ratios.map fun r =>
            { volume := volume * r, entry_price := entry_price, entry_time := now }
        next_partial_level_idx := 0
        remaining_volume := volume }
  else { s with remaining_volume := volume }

/-- `TrailingStopMixin.update_trailing_stop`; `entry_price` is
`self.position.entry_price`. -/
def update_trailing_stop (cfg : TrailConfig) (entry_price : ℚ) (s : TrailState)
    (current_price : ℚ) : TrailState × Option Signal :=
  if cfg.trailing_stop_enabled = false ∨ entry_price ≤ 0 then (s, none)
  else
    let s := if s.highest_price < current_price then { s with highest_price := current_price } else s
    let entry_gain_pct := (current_price - entry_price) / entry_price * 100
    let s :=
      if s.trailing_active = false ∧ cfg.trailing_activation_pct ≤ entry_gain_pct then
        { s with
            trailing_active := true
            trailing_stop_price := s.highest_price * (1 - cfg.trailing_stop_pct / 100) }
      else s
    if s.trailing_active = true then
      let new_stop_price := s.highest_price * (1 - cfg.trailing_stop_pct / 100)
      let s :=
        if s.trailing_stop_price < new_stop_price then
          { s with trailing_stop_price := new_stop_price }
        else s
      if current_price ≤ s.trailing_stop_price then
        (s, some
          { action := "sell", price := some current_price,
            volume := some s.remaining_volume, reason := "trailing stop triggered" })
      else (s, none)
    else (s, none)

/-- `TrailingStopMixin.check_partial_close`; `entry_price` is
`self.position.entry_price`, `now` stands for `time.time()`.  The `none`
case of the slice lookup corresponds to Python's IndexError and is
unreachable whenever `partial_close_levels` is no longer than
`partial_positions` (as under the default configuration). -/
def check_partial_close (cfg : TrailConfig) (entry_price now : ℚ) (s : TrailState)
    (current_price : ℚ) : TrailState × Option Signal :=
  if cfg.partial_close_enabled = false ∨ entry_price ≤ 0 then (s, none)
  else if cfg.partial_close_levels.length ≤ s.next_partial_level_idx then (s, none)
  else
    let gain_pct := (current_price - entry_price) / entry_price * 100
    let target_level := cfg.partial_close_levels.getD s.next_partial_level_idx 0
    if target_level ≤ gain_pct then
      match s.partial_positions.get? s.next_partial_level_idx with
      | none => (s, none)
      | some p =>
        if p.is_closed = false then
          let p' := { p with is_closed := true, close_price := current_price, close_time := now }
          let s' :=
            { s with
                partial_positions := s.partial_positions.set s.next_partial_level_idx p'
                remaining_volume := s.remaining_volume - p.volume
                next_partial_level_idx := s.next_partial_level_idx + 1 }
          (s', some
            { action := "sell", price := some current_price,
              volume := some p.volume, reason := "partial close" })
        else (s, none)
    else (s, none)

/-- State reached after a sequence of `update_trailing_stop` calls from a
fresh `setup_position_tracking`. -/
def trailTrace (cfg : TrailConfig) (now entry_price volume : ℚ) (ps : List ℚ) : TrailState :=
  ps.foldl (fun s c => (update_trailing_stop cfg entry_price s c).1)
    (setup_position_tracking cfg now entry_price volume)

/-- State reached after a sequence of `check_partial_close` calls from a
fresh `setup_position_tracking`. -/
def partialTrace (cfg : TrailConfig) (now entry_price volume : ℚ) (ps : List ℚ) : TrailState :=
  ps.foldl (fun s c => (check_partial_close cfg entry_price now s c).1)
    (setup_position_tracking cfg now entry_price volume)

/-- Total volume of the closed slices of `partial_positions`. -/
def closedVolume (s : TrailState) : ℚ :=
  ((s.partial_positions.filter fun p => p.is_closed).map fun p => p.volume).sum

/-- A message put on `order_q` by the Trader.  `marketOrder` is a
`{"type": "order", "params": {..., "ord_type": "market"}}` submission;
the other constructors are `{"type": "query"}` messages with the method
named by the constructor. -/
inductive ApiRequest where
  | marketOrder (market side : String) (volume : ℚ) (request_id : String)
  | balanceQuery (ticker : String) (request_id : String)
  | orderStatusQuery (uuid : String) (request_id : String)
  | cancelQuery (uuid : String) (request_id : String)
  deriving Repr, DecidableEq

/-- Whether an `order_q` message has `type = "order"` (an outbound order
submission rather than a query). -/
def ApiRequest.isOrder : ApiRequest → Bool
  | marketOrder _ _ _ _ => true
  | _ => false

/-- A `pending_requests` record in `Trader.run` / `Trader.rebind_symbols`:
what the response correlated by `request_id` should be applied to. -/
inductive ReqInfo where
  | balance_krw
  | balance_coin (symbol : String)
  | buy_order (symbol : String) (price volume : ℚ) (reason : String)
  | sell_order (symbol : String) (price volume : ℚ) (reason : String)
  | order_status (uuid : String)
  | cancel_order (uuid : String)
  deriving Repr, DecidableEq

/-- `dict.pop(k, None)`: drop the entry keyed `k` from an association list. -/
def apop (m : List (String × α)) (k : String) : List (String × α) :=
  m.filter fun kv => kv.1 ≠ k

/-- `dict[k] = v`: overwrite the entry keyed `k`, or append it when absent. -/
def aset (m : List (String × α)) (k : String) (v : α) : List (String × α) :=
  if (List.lookup k m).isSome then
    m.map fun kv => if kv.1 = k then (k, v) else kv
  else m ++ [(k, v)]

/-- The output of `Trader.rebind_symbols`: the rebound mappings plus what
was put on `order_q`, `pending_requests` and `notify_q`. -/
structure RebindResult where
  risk_managers : List (String × ℚ)
  coin_balances : List (String × ℚ)
  last_prices : List (String × ℚ)
  orders : List ApiRequest
  pending_requests : List (String × ReqInfo)
  notices : List String
  deriving Repr, DecidableEq

/-- `removed_syms` of `Trader.rebind_symbols`: current risk-manager keys
(`cur_syms`) not in the deduplicated new symbol set. -/
def rebindRemoved (new_symbols : List String) (risk_managers : List (String × ℚ)) :
    List String :=
  (risk_managers.map fun kv => kv.1).filter fun sym => ¬ sym ∈ new_symbols.dedup

/-- `added_syms` of `Trader.rebind_symbols`: new symbols not among the
current risk-manager keys. -/
def rebindAdded (new_symbols : List String) (risk_managers : List (String × ℚ)) :
    List String :=
  new_symbols.dedup.filter fun sym => ¬ sym ∈ (risk_managers.map fun kv => kv.1)

/-- The removed-symbol branch body of `Trader.rebind_symbols`: for a
symbol with positive coin balance, the full-balance market sell, its
`pending_requests` record with reason `symbol_removed`, and the
`[AUTO SELL]` notification; `none` when the balance is zero. -/
def rebindSellFor (coin_balances last_prices : List (String × ℚ)) (sym : String) :
    Option (ApiRequest × (String × ReqInfo) × String) :=
  let vol := (List.lookup sym coin_balances).getD 0
  if 0 < vol then
    some
      (ApiRequest.marketOrder sym "sell" vol ("rebind-sell:" ++ sym),
       ("rebind-sell:" ++ sym,
        ReqInfo.sell_order sym ((List.lookup sym last_prices).getD 0) vol "symbol_removed"),
       "[AUTO SELL] " ++ sym)
  else none

/-- `Trader.rebind_symbols` (`src/trading/trader.py`).  A `RiskManager` is
represented by its only constructor datum `max_position_krw`, so
`risk_managers` maps symbol to that bound; `maxPos` is
`get_max_position_krw`.  Each `uuid.uuid4()` request id is modelled by a
tag unique to its symbol. -/
def rebind_symbols (maxPos : String → ℚ) (new_symbols : List String)
    (risk_managers coin_balances last_prices : List (String × ℚ))
    (pending_requests : List (String × ReqInfo)) : RebindResult :=
  let removed_syms := rebindRemoved new_symbols risk_managers
  let added_syms := rebindAdded new_symbols risk_managers
  let sells := removed_syms.filterMap (rebindSellFor coin_balances last_prices)
  let risk1 := removed_syms.foldl apop risk_managers
  let coin1 := removed_syms.foldl apop coin_balances
  let prices1 := removed_syms.foldl apop last_prices
  let risk2 := added_syms.foldl (fun m sym => aset m sym (maxPos sym)) risk1
  let coin2 := added_syms.foldl (fun m sym => aset m sym ((List.lookup sym m).getD 0)) coin1
  let prices2 := added_syms.foldl (fun m sym => aset m sym ((List.lookup sym m).getD 0)) prices1
  { risk_managers := risk2
    coin_balances := coin2
    last_prices := prices2
    orders :=
      (sells.map fun e => e.1) ++
        added_syms.map fun sym => ApiRequest.balanceQuery sym ("rebind-bal:" ++ sym)
    pending_requests :=
      pending_requests ++ (sells.map fun e => e.2.1) ++
        added_syms.map fun sym => ("rebind-bal:" ++ sym, ReqInfo.balance_coin sym)
    notices := (sells.map fun e => e.2.2) ++ ["[SYMBOLS] update complete"] }

/-- `Trader.ORDER_INTERVAL = 0.15` seconds. -/
def ORDER_INTERVAL : ℚ := 3 / 20

/-- One iteration of `Trader.run`'s main loop, restricted to what reaches
`order_q`: a market tick whose strategy signal requests an order (and
passes the risk and minimum-size checks, abstracted into `wants_order`),
or a `symbol_manager.maybe_refresh()` rebind.  Each event carries the
`time.time()` instant of the iteration. -/
inductive LoopEvent where
  | tick (t : ℚ) (wants_order : Bool)
  | rebind (t : ℚ) (new_symbols : List String)
  deriving Repr, DecidableEq

/-- The `time.time()` instant of a loop event. -/
def LoopEvent.time : LoopEvent → ℚ
  | tick t _ => t
  | rebind t _ => t

/-- Trader-loop state for the order-rate gate: `last_order_ts`, the
rebindable maps, and the order submissions so far as `(time, from_tick)`
pairs (`from_tick = false` for the market sells of `rebind_symbols`). -/
structure TraderLoopState where
  last_order_ts : ℚ
  risk_managers : List (String × ℚ)
  coin_balances : List (String × ℚ)
  last_prices : List (String × ℚ)
  pending_requests : List (String × ReqInfo)
  submissions : List (ℚ × Bool)
  deriving Repr, DecidableEq

/-- One step of `Trader.run`: the tick path submits only when
`now - last_order_ts ≥ ORDER_INTERVAL` and then sets `last_order_ts`; the
rebind path forwards every order of `rebind_symbols` to `order_q` without
consulting or updating `last_order_ts`. -/
def loopStep (maxPos : String → ℚ) (st : TraderLoopState) (e : LoopEvent) : TraderLoopState :=
  match e with
  | .tick t wants_order =>
    if wants_order then
      if t - st.last_order_ts < ORDER_INTERVAL then st
      else { st with last_order_ts := t, submissions := st.submissions ++ [(t, true)] }
    else st
  | .rebind t new_symbols =>
    let r := rebind_symbols maxPos new_symbols st.risk_managers st.coin_balances
      st.last_prices st.pending_requests
    { st with
        risk_managers := r.risk_managers
        coin_balances := r.coin_balances
        last_prices := r.last_prices
        pending_requests := r.pending_requests
        submissions :=
          st.submissions ++ (r.orders.filter ApiRequest.isOrder).map fun _ => (t, false) }

/-- Fold the trader loop over a sequence of events. -/
def runTraderLoop (maxPos : String → ℚ) (st : TraderLoopState) (events : List LoopEvent) :
    TraderLoopState :=
  events.foldl (loopStep maxPos) st

/-- The `"result"` payload of an API response: a number for balance
queries, order data for `get_order`, or absent. -/
inductive RespResult where
  | num (v : ℚ)
  | status (state : String) (volume remaining_volume : ℚ) (trades : List (ℚ × ℚ))
  | missing
  deriving Repr, DecidableEq

/-- `response.get("result", 0.0)` read as a number. -/
def RespResult.asNum : RespResult → ℚ
  | num v => v
  | _ => 0

/-- An API response consumed by `Trader.run`. -/
structure ApiResponse where
  request_id : String
  uuid : Option String := none
  result : RespResult := RespResult.missing
  deriving Repr, DecidableEq

/-- A `pending_orders` record of `Trader.run`. -/
structure PendingOrder where
  symbol : String
  side : String
  volume : ℚ
  price : ℚ
  sent_ts : ℚ
  last_check : ℚ
  deriving Repr, DecidableEq

/-- The Trader-local state read and written by the response-draining loop
of `Trader.run`, together with the portfolio counters of
`StrategyManager._update_portfolio_stats`. -/
structure TraderRespState where
  krw_balance : ℚ
  coin_balances : List (String × ℚ)
  pending_requests : List (String × ReqInfo)
  pending_orders : List (String × PendingOrder)
  strategies : List (String × StrategyState)
  active_positions : ℕ
  total_position_value : ℚ
  deriving Repr, DecidableEq

/-- What one response-processing step produced besides the new state:
`order_q` messages, notifications and trade-log rows `(side, symbol,
price, volume)`. -/
structure RespEffect where
  state : TraderRespState
  orders : List ApiRequest
  notices : List String
  db_rows : List (String × String × ℚ × ℚ)
  deriving Repr, DecidableEq

/-- `StrategyManager.process_order_fill`: dispatch the fill to the
symbol's strategy (unknown symbols are ignored) and update the portfolio
counters per `_update_portfolio_stats`. -/
def process_order_fill (st : TraderRespState) (symbol : String) (fill : OrderFill) :
    TraderRespState :=
  match List.lookup symbol st.strategies with
  | none => st
  | some s =>
    let st := { st with strategies := aset st.strategies symbol (onOrderFill s fill) }
    if fill.side = "buy" then
      { st with
          active_positions := st.active_positions + 1
          total_position_value := st.total_position_value + fill.price * fill.volume }
    else
      { st with
          active_positions := st.active_positions - 1
          total_position_value := max 0 (st.total_position_value - fill.price * fill.volume) }

/-- `_refresh_balances` of `src/trading/trader.py`: one KRW and one coin
balance query, with their correlation records.  Request ids are tagged by
the triggering order's uuid. -/
def refresh_balances (uuid symbol : String) : List ApiRequest × List (String × ReqInfo) :=
  ([ApiRequest.balanceQuery "KRW" ("refresh-krw:" ++ uuid),
    ApiRequest.balanceQuery symbol ("refresh-coin:" ++ uuid)],
   [("refresh-krw:" ++ uuid, ReqInfo.balance_krw),
    ("refresh-coin:" ++ uuid, ReqInfo.balance_coin symbol)])

/-- One iteration of the API-response drain of `Trader.run` (lines
191-299): correlate by `request_id` (unknown ids are skipped), retire the
correlation, and apply the branch for the recorded request type.  `now`
stands for `time.time()`. -/
def processResponse (st : TraderRespState) (now : ℚ) (r : ApiResponse) : RespEffect :=
  match List.lookup r.request_id st.pending_requests with
  | none => { state := st, orders := [], notices := [], db_rows := [] }
  | some req_info =>
    let st := { st with pending_requests := apop st.pending_requests r.request_id }
    match req_info with
    | ReqInfo.balance_krw =>
      { state := { st with krw_balance := r.result.asNum }, orders := [], notices := [], db_rows := [] }
    | ReqInfo.balance_coin symbol =>
      { state := { st with coin_balances := aset st.coin_balances symbol r.result.asNum },
        orders := [], notices := [], db_rows := [] }
    | ReqInfo.buy_order symbol price volume _reason =>
      match r.uuid with
      | some uuid_val =>
        { state :=
            { st with
                pending_orders :=
                  aset st.pending_orders uuid_val
                    { symbol := symbol, side := "buy", volume := volume, price := price,
                      sent_ts := now, last_check := 0 } }
          orders := [], notices := ["[BUY REQUEST] " ++ symbol], db_rows := [] }
      | none =>
        { state := st, orders := [], notices := ["[BUY ERROR] " ++ symbol], db_rows := [] }
    | ReqInfo.sell_order symbol price volume _reason =>
      match r.uuid with
      | some uuid_val =>
        { state :=
            { st with
                pending_orders :=
                  aset st.pending_orders uuid_val
                    { symbol := symbol, side := "sell", volume := volume, price := price,
                      sent_ts := now, last_check := 0 } }
          orders := [], notices := ["[SELL REQUEST] " ++ symbol], db_rows := [] }
      | none =>
        { state := st, orders := [], notices := ["[SELL ERROR] " ++ symbol], db_rows := [] }
    | ReqInfo.order_status uuid_val =>
      match List.lookup uuid_val st.pending_orders with
      | none => { state := st, orders := [], notices := [], db_rows := [] }
      | some po =>
        match r.result with
        | RespResult.status state_str total_vol remain_vol trades =>
          if state_str = "done" then
            let exec_vol := if total_vol ≠ 0 then total_vol - remain_vol else po.volume
            let avg_price :=
              if trades ≠ [] then
                (trades.map fun t => t.1 * t.2).sum / (trades.map fun t => t.2).sum
              else po.price
            let fill : OrderFill :=
              { symbol := po.symbol, side := po.side, price := avg_price,
                volume := exec_vol, timestamp := now, order_id := uuid_val }
            let st := process_order_fill st po.symbol fill
            let rb := refresh_balances uuid_val po.symbol
            { state :=
                { st with
                    pending_requests := st.pending_requests ++ rb.2
                    pending_orders := apop st.pending_orders uuid_val }
              orders := rb.1
              notices := ["[FILL] " ++ po.side ++ " " ++ po.symbol]
              db_rows := [(po.side, po.symbol, avg_price, exec_vol)] }
          else if state_str = "cancel" ∨ state_str = "fail" then
            { state := { st with pending_orders := apop st.pending_orders uuid_val },
              orders := [], notices := ["[CANCEL] " ++ po.symbol], db_rows := [] }
          else { state := st, orders := [], notices := [], db_rows := [] }
        | _ => { state := st, orders := [], notices := [], db_rows := [] }
    | ReqInfo.cancel_order uuid_val =>
      { state := { st with pending_orders := apop st.pending_orders uuid_val },
        orders := [], notices := ["[CANCELLED] order cancel complete"], db_rows := [] }

/-- `src/utils/rate_limiter.py` `TokenBucket` state. -/
structure BucketState where
  capacity : ℚ
  refill_rate : ℚ
  tokens : ℚ
  last_refill : ℚ
  deriving Repr, DecidableEq

/-- `TokenBucket.__init__(capacity, refill_rate)` at time `now`. -/
def initBucket (capacity refill_rate now : ℚ) : BucketState where
  capacity := capacity
  refill_rate := refill_rate
  tokens := capacity
  last_refill := now

/-- `TokenBucket.consume(tokens)` at wall-clock instant `now`: refill by
the elapsed time (capped at capacity), then decrement on success. -/
def consume (b : BucketState) (now : ℚ) (tokens : ℚ) : Bool × BucketState :=
  let time_passed := now - b.last_refill
  let refilled := min b.capacity (b.tokens + time_passed * b.refill_rate)
  if tokens ≤ refilled then
    (true, { b with tokens := refilled - tokens, last_refill := now })
  else
    (false, { b with tokens := refilled, last_refill := now })

/-- The instant at which `TokenBucket.wait_for_token(k)` entered at time
`now` first finds `k` tokens: immediately when they are available after
refill, otherwise after waiting `(k - tokens)/refill_rate` (the sleep
loop of lines 41-57 wakes in steps of at most `0.1 s` and lands on this
instant under zero processing overhead). -/
def admitTime (b : BucketState) (now k : ℚ) : ℚ :=
  let refilled := min b.capacity (b.tokens + (now - b.last_refill) * b.refill_rate)
  if k ≤ refilled then now else now + (k - refilled) / b.refill_rate

/-- `TokenBucket.wait_for_token(k, timeout)` entered at time `now`:
succeeds, consuming at the admission instant, iff the wait ends strictly
before the timeout elapses (at exactly the timeout the `while` guard
`time.time() - start < timeout` already fails and `False` is
returned). -/
def wait_for_token (b : BucketState) (now k timeout : ℚ) : Bool × BucketState :=
  if admitTime b now k - now < timeout then (true, (consume b (admitTime b now k) k).2)
  else (false, b)

/-- Back-to-back single-token acquisitions: each request is issued the
moment the previous one was admitted, as in spec scenario 6.  Returns the
list of admission instants. -/
def greedyAdmissions (b : BucketState) (start : ℚ) : ℕ → List ℚ
  | 0 => []
  | n + 1 =>
    let t := admitTime b start 1
    let b' := (consume b t 1).2
    t :: greedyAdmissions b' t n

/-! ## Theorems -/

/-- C1 counterexample: with entry volume 2 and a sell fill of volume 1 at
price 12 after a buy at 10, `_on_sell_fill` adds `(12 − 10) × 2 = 4` to
`realized_pnl` — the held `position.volume`, not `(fill.price −
entry_price) × fill.volume = 2` as the claim states. -/
theorem onSellFill_uses_position_volume :
    (onOrderFill (onOrderFill (initStrategy "KRW-BTC")
        { symbol := "KRW-BTC", side := "buy", price := 10, volume := 2, timestamp := 0,
          order_id := "b" })
        { symbol := "KRW-BTC", side := "sell", price := 12, volume := 1, timestamp := 1,
          order_id := "s" }).position.realized_pnl -
      (onOrderFill (initStrategy "KRW-BTC")
        { symbol := "KRW-BTC", side := "buy", price := 10, volume := 2, timestamp := 0,
          order_id := "b" }).position.realized_pnl = 4 ∧
    ((12 : ℚ) - 10) * 1 = 2 ∧ ¬ ((4 : ℚ) = 2) := by
  refine ⟨?_, by norm_num, by norm_num⟩
  simp [onOrderFill, onSellFill, onBuyFill, initStrategy]
  norm_num

/-- C1 (amended): a sell fill while LONG realizes `pnl = (fill.price −
entry_price) × position.volume` (the held volume, not the fill's volume),
adds it to `realized_pnl` and `total_pnl`, counts a winning trade iff
`pnl > 0`, and resets the position to NONE with zero entry price and
volume; hence a pair `(buy_fill, sell_fill)` increases `realized_pnl` by
`(sell.price − buy.price) × buy.volume`. -/
theorem onOrderFill_sell_long_spec (s : StrategyState) (fill : OrderFill)
    (h_side : fill.side = "sell")
    (h_long : s.position.position_type = PositionType.long) :
    (onOrderFill s fill).position.realized_pnl =
      s.position.realized_pnl + (fill.price - s.position.entry_price) * s.position.volume ∧
    (onOrderFill s fill).total_pnl =
      s.total_pnl + (fill.price - s.position.entry_price) * s.position.volume ∧
    ((onOrderFill s fill).winning_trades =
      if 0 < (fill.price - s.position.entry_price) * s.position.volume then
        s.winning_trades + 1
      else s.winning_trades) ∧
    (onOrderFill s fill).position.position_type = PositionType.none ∧
    (onOrderFill s fill).position.entry_price = 0 ∧
    (onOrderFill s fill).position.volume = 0 ∧
    ∀ (t : StrategyState) (buy : OrderFill), buy.side = "buy" →
      (onOrderFill (onOrderFill t buy) fill).position.realized_pnl =
        (onOrderFill t buy).position.realized_pnl + (fill.price - buy.price) * buy.volume := by
  refine ⟨?_, ?_, ?_, ?_, ?_, ?_, ?_⟩
  · simp [onOrderFill, onSellFill, h_side, h_long]
  · simp [onOrderFill, onSellFill, h_side, h_long]
  · simp [onOrderFill, onSellFill, h_side, h_long]
  · simp [onOrderFill, onSellFill, h_side, h_long]
  · simp [onOrderFill, onSellFill, h_side, h_long]
  · simp [onOrderFill, onSellFill, h_side, h_long]
  · intro t buy h_buy
    simp [onOrderFill, onBuyFill, onSellFill, h_side, h_buy]

/-- C1 witness: the amended pnl equation at a concrete LONG state and sell
fill. -/
theorem onOrderFill_sell_long_spec_witness :
    (onOrderFill
        { symbol := "KRW-BTC",
          position :=
            { symbol := "KRW-BTC", position_type := PositionType.long, entry_price := 10,
              volume := 2, entry_time := 0, unrealized_pnl := 0, realized_pnl := 0 },
          is_initialized := true, last_tick_time := 0, tick_count := 0, total_trades := 1,
          winning_trades := 0, total_pnl := 0 }
        { symbol := "KRW-BTC", side := "sell", price := 12, volume := 1, timestamp := 1,
          order_id := "s" }).position.realized_pnl = 0 + (12 - 10) * 2 :=
  (onOrderFill_sell_long_spec _ _ rfl rfl).1

/-- C2: `RiskManager.allow_order` returns `false` iff at least one of the
five reject conditions holds (daily loss limit, coin-ratio cap, max
concurrent positions, the 5000 KRW exchange minimum, or less than 10% of
`max_position_krw`), and `true` otherwise. -/
theorem allow_order_spec (daily_loss_limit_krw max_coin_ratio : ℚ)
    (max_concurrent_positions : ℕ) (max_position_krw : ℚ)
    (krw_balance coin_ratio realized_daily_pnl : ℚ) (active_positions : ℕ) :
    allow_order daily_loss_limit_krw max_coin_ratio max_concurrent_positions
        max_position_krw krw_balance coin_ratio realized_daily_pnl active_positions = false ↔
      (realized_daily_pnl ≤ -daily_loss_limit_krw ∨
        max_coin_ratio ≤ coin_ratio ∨
        max_concurrent_positions ≤ active_positions ∨
        krw_balance < 5000 ∨
        krw_balance < max_position_krw * (1 / 10)) := by
  unfold allow_order
  split_ifs <;> simp_all

/-- C8: the spec invariant `type=NONE ⇒ entry_price=0 ∧ volume=0` holds
after `BaseStrategy.__init__` and is preserved by `on_order_fill` (buy
and sell), by the position bookkeeping of `on_tick`, and by `reset`. -/
theorem position_invariant_preserved :
    (∀ sym, positionInv (initStrategy sym).position) ∧
    (∀ s fill, positionInv (onOrderFill s fill).position) ∧
    (∀ s now trade_price, positionInv s.position →
      positionInv (baseOnTick s now trade_price).position) ∧
    (∀ s, positionInv (resetStrategy s).position) := by
  refine ⟨?_, ?_, ?_, ?_⟩
  · intro sym
    simp [initStrategy, positionInv]
  · intro s fill
    by_cases h : fill.side = "buy"
    · simp [onOrderFill, onBuyFill, positionInv, h]
    · simp [onOrderFill, onSellFill, positionInv, h]
  · intro s now trade_price h
    unfold baseOnTick updateUnrealizedPnl
    split_ifs with h1 h2
    · exact h
    · intro hn
      exact h hn
    · intro hn
      exact h hn
  · intro s
    simp [resetStrategy, positionInv]

/-- C8 witness: the invariant after a tick on a freshly built strategy. -/
theorem position_invariant_preserved_witness :
    positionInv (baseOnTick (initStrategy "KRW-BTC") 1 (some 5)).position :=
  position_invariant_preserved.2.2.1 (initStrategy "KRW-BTC") 1 (some 5) (by decide)

/-- While no orderbook quote is stored, a non-orderbook tick leaves the
scalping state unchanged and yields action `"none"`. -/
theorem scalpingOnTick_no_quotes (s : ScalpingState) (now : ℚ) (t : Tick)
    (h : ¬ t.type_ = "orderbook") (hb : s.best_bid = none) :
    scalpingOnTick s now t = (s, { action := "none" }) := by
  cases hsa : s.best_ask <;> simp [scalpingOnTick, h, hb, hsa]

/-- All signals accumulated by the scalping tick loop over orderbook-free
ticks, from a state with no stored bid quote, are `"none"`. -/
theorem scalpingRun_aux (now : ℚ) (ticks : List Tick) :
    ∀ (s : ScalpingState) (acc : List Signal),
      (∀ t ∈ ticks, ¬ t.type_ = "orderbook") → s.best_bid = none →
      ∀ sig ∈ (ticks.foldl
          (fun acc t =>
            let r := scalpingOnTick acc.1 now t
            (r.1, acc.2 ++ [r.2])) (s, acc)).2,
        sig ∈ acc ∨ sig.action = "none" := by
  induction ticks with
  | nil =>
    intro s acc _ _ sig hsig
    exact Or.inl hsig
  | cons t rest ih =>
    intro s acc h hb sig hsig
    have ht : ¬ t.type_ = "orderbook" := h t (by simp)
    have hstep := scalpingOnTick_no_quotes s now t ht hb
    rw [List.foldl_cons] at hsig
    simp only [hstep] at hsig
    have := ih s (acc ++ [{ action := "none" }]) (fun u hu => h u (by simp [hu])) hb sig hsig
    rcases this with hmem | hnone
    · rcases List.mem_append.1 hmem with hmem' | hmem'
      · exact Or.inl hmem'
      · right
        simp at hmem'
        rw [hmem']
    · exact Or.inr hnone

/-- C10: `ScalpingStrategy.on_tick` returns `"none"` for every
orderbook tick; for every non-orderbook tick while either quote is unset
or the stored spread exceeds `max_allowed_spread`; and, since
construction leaves both quotes unset and non-orderbook ticks never set
them, no buy or sell signal is emitted before the first orderbook
message has been processed. -/
theorem scalping_no_signal_before_orderbook :
    (∀ (s : ScalpingState) (now : ℚ) (t : Tick), t.type_ = "orderbook" →
      (scalpingOnTick s now t).2.action = "none") ∧
    (∀ (s : ScalpingState) (now : ℚ) (t : Tick), ¬ t.type_ = "orderbook" →
      s.best_bid = none ∨ s.best_ask = none →
      (scalpingOnTick s now t).2.action = "none") ∧
    (∀ (s : ScalpingState) (now : ℚ) (t : Tick) (bb ba : ℚ), ¬ t.type_ = "orderbook" →
      s.best_bid = some bb → s.best_ask = some ba → s.max_spread < ba - bb →
      (scalpingOnTick s now t).2.action = "none") ∧
    (∀ (sym : String) (w : ℕ) (tp sl ms : ℚ), (initScalping sym w tp sl ms).best_bid = none) ∧
    (∀ (s : ScalpingState) (now : ℚ) (ticks : List Tick),
      s.best_bid = none → (∀ t ∈ ticks, ¬ t.type_ = "orderbook") →
      ∀ sig ∈ (scalpingRun s now ticks).2, sig.action = "none") := by
  refine ⟨?_, ?_, ?_, ?_, ?_⟩
  · intro s now t h
    simp [scalpingOnTick, h]
  · intro s now t h hq
    rcases hq with hb | ha
    · rw [scalpingOnTick_no_quotes s now t h hb]
    · cases hsb : s.best_bid <;> simp [scalpingOnTick, h, hsb, ha]
  · intro s now t bb ba h hbb hba hsp
    simp [scalpingOnTick, h, hbb, hba, hsp]
  · intro sym w tp sl ms
    rfl
  · intro s now ticks hb h sig hsig
    have := scalpingRun_aux now ticks s [] h hb sig hsig
    rcases this with hmem | hnone
    · simp at hmem
    · exact hnone

/-- C10 witness: a concrete trade tick before any orderbook message
yields `"none"`. -/
theorem scalping_no_signal_before_orderbook_witness :
    (scalpingOnTick (initScalping "KRW-BTC" 5 (1 / 2) 1 1000) 0
        { type_ := "trade", trade_price := some 100 }).2.action = "none" :=
  scalping_no_signal_before_orderbook.2.1
    (initScalping "KRW-BTC" 5 (1 / 2) 1 1000) 0
    { type_ := "trade", trade_price := some 100 } (by decide) (Or.inl rfl)

/-- Invariant maintained by the trailing-stop state while the entry price
and all observed prices are positive and `trailing_stop_pct ≤ 100`:
the tracked high is positive, the stop is non-negative, and the stop is
still `0` while trailing is inactive. -/
def trailInv (s : TrailState) : Prop :=
  0 < s.highest_price ∧ 0 ≤ s.trailing_stop_price ∧
    (s.trailing_active = false → s.trailing_stop_price = 0)

theorem trailInv_setup (cfg : TrailConfig) (now entry volume : ℚ) (h : 0 < entry) :
    trailInv (setup_position_tracking cfg now entry volume) := by
  unfold setup_position_tracking trailInv
  split_ifs <;> simp [h]

set_option maxHeartbeats 1000000 in
set_option linter.unreachableTactic false in
set_option linter.unusedTactic false in
/-- Single-step behaviour of `update_trailing_stop` under `trailInv`:
the tracked high becomes the max with the current price, activation is
edge-triggered by the gain threshold, the stop price follows
`max stop (highest × (1 − pct/100))` while active and never decreases,
and a sell for `remaining_volume` is emitted iff the current price is at
or below the updated stop. -/
theorem update_trailing_stop_step (cfg : TrailConfig) (entry : ℚ)
    (s : TrailState) (c : ℚ)
    (h_en : cfg.trailing_stop_enabled = true) (h_entry : 0 < entry)
    (h_pct : cfg.trailing_stop_pct ≤ 100) (h_c : 0 < c) (hinv : trailInv s) :
    (update_trailing_stop cfg entry s c).1.highest_price = max s.highest_price c ∧
    (update_trailing_stop cfg entry s c).1.trailing_active =
      (s.trailing_active ||
        decide (cfg.trailing_activation_pct ≤ (c - entry) / entry * 100)) ∧
    ((update_trailing_stop cfg entry s c).1.trailing_active = true →
      (update_trailing_stop cfg entry s c).1.trailing_stop_price =
        max s.trailing_stop_price
          ((update_trailing_stop cfg entry s c).1.highest_price *
            (1 - cfg.trailing_stop_pct / 100))) ∧
    s.trailing_stop_price ≤ (update_trailing_stop cfg entry s c).1.trailing_stop_price ∧
    (¬ (update_trailing_stop cfg entry s c).2 = none ↔
      c ≤ (update_trailing_stop cfg entry s c).1.trailing_stop_price) ∧
    (∀ g, (update_trailing_stop cfg entry s c).2 = some g →
      g = { action := "sell", price := some c, volume := some s.remaining_volume,
            reason := "trailing stop triggered" }) ∧
    (update_trailing_stop cfg entry s c).1.remaining_volume = s.remaining_volume ∧
    trailInv (update_trailing_stop cfg entry s c).1 := by
  obtain ⟨hh, hs0, hsi⟩ := hinv
  have hguard : ¬ (cfg.trailing_stop_enabled = false ∨ entry ≤ 0) := by
    simp [h_en]
    linarith
  have hmulnn : 0 ≤ max s.highest_price c * (1 - cfg.trailing_stop_pct / 100) := by
    have h1 : 0 < max s.highest_price c := lt_max_of_lt_left hh
    have h2 : 0 ≤ 1 - cfg.trailing_stop_pct / 100 := by linarith
    positivity
  unfold update_trailing_stop trailInv
  rw [if_neg hguard]
  by_cases h1 : s.highest_price < c <;>
    by_cases hact : s.trailing_active <;>
      simp only [h1, hact, if_true, if_false, ite_true, ite_false, Bool.true_eq_false,
        Bool.false_eq_true, false_and, true_and, and_true, and_false, if_neg, if_pos,
        Bool.true_or, Bool.false_or, decide_eq_true_eq] <;>
    split_ifs <;>
      simp_all <;>
      first
        | linarith
        | (intro h
           linarith)
        | (constructor <;>
            first
              | linarith
              | (intro h
                 linarith)
              | rfl
              | simp_all
              | (constructor <;>
                  first
                    | linarith
                    | (intro h
                       linarith)
                    | rfl
                    | simp_all))

theorem trailInv_foldl (cfg : TrailConfig) (entry : ℚ)
    (h_en : cfg.trailing_stop_enabled = true) (h_entry : 0 < entry)
    (h_pct : cfg.trailing_stop_pct ≤ 100) :
    ∀ (ps : List ℚ) (s : TrailState), (∀ p ∈ ps, 0 < p) → trailInv s →
      trailInv (ps.foldl (fun s c => (update_trailing_stop cfg entry s c).1) s) := by
  intro ps
  induction ps with
  | nil =>
    intro s _ h
    exact h
  | cons p rest ih =>
    intro s hps hinv
    rw [List.foldl_cons]
    exact ih _ (fun q hq => hps q (List.mem_cons_of_mem _ hq))
      (update_trailing_stop_step cfg entry s p h_en h_entry h_pct
        (hps p (List.mem_cons_self _ _)) hinv).2.2.2.2.2.2.2

/-- C3: for every sequence of `update_trailing_stop` calls with positive
prices from a fresh `setup_position_tracking` (long held, `entry > 0`,
trailing enabled, `trailing_stop_pct ≤ 100`): the high-water mark is the
max of itself and the current price; trailing activates once the gain
over entry reaches `trailing_activation_pct`; while active the stop
equals `max previous_stop (highest × (1 − trailing_stop_pct/100))` and
is non-decreasing; and a sell for `remaining_volume` is emitted iff
`current_price ≤ trailing_stop_price`. -/
theorem update_trailing_stop_spec (cfg : TrailConfig) (now entry volume : ℚ)
    (ps : List ℚ) (c : ℚ)
    (h_en : cfg.trailing_stop_enabled = true) (h_entry : 0 < entry)
    (h_pct : cfg.trailing_stop_pct ≤ 100)
    (hps : ∀ p ∈ ps, 0 < p) (h_c : 0 < c) :
    (update_trailing_stop cfg entry (trailTrace cfg now entry volume ps) c).1.highest_price =
      max (trailTrace cfg now entry volume ps).highest_price c ∧
    (update_trailing_stop cfg entry (trailTrace cfg now entry volume ps) c).1.trailing_active =
      ((trailTrace cfg now entry volume ps).trailing_active ||
        decide (cfg.trailing_activation_pct ≤ (c - entry) / entry * 100)) ∧
    ((update_trailing_stop cfg entry (trailTrace cfg now entry volume ps) c).1.trailing_active =
        true →
      (update_trailing_stop cfg entry (trailTrace cfg now entry volume ps) c).1.trailing_stop_price =
        max (trailTrace cfg now entry volume ps).trailing_stop_price
          ((update_trailing_stop cfg entry
              (trailTrace cfg now entry volume ps) c).1.highest_price *
            (1 - cfg.trailing_stop_pct / 100))) ∧
    (trailTrace cfg now entry volume ps).trailing_stop_price ≤
      (update_trailing_stop cfg entry (trailTrace cfg now entry volume ps) c).1.trailing_stop_price ∧
    (¬ (update_trailing_stop cfg entry (trailTrace cfg now entry volume ps) c).2 = none ↔
      c ≤ (update_trailing_stop cfg entry
          (trailTrace cfg now entry volume ps) c).1.trailing_stop_price) ∧
    (∀ g, (update_trailing_stop cfg entry (trailTrace cfg now entry volume ps) c).2 = some g →
      g = { action := "sell", price := some c,
            volume := some (trailTrace cfg now entry volume ps).remaining_volume,
            reason := "trailing stop triggered" }) := by
  have hinv : trailInv (trailTrace cfg now entry volume ps) := by
    unfold trailTrace
    exact trailInv_foldl cfg entry h_en h_entry h_pct ps _ hps
      (trailInv_setup cfg now entry volume h_entry)
  have h := update_trailing_stop_step cfg entry (trailTrace cfg now entry volume ps) c
    h_en h_entry h_pct h_c hinv
  exact ⟨h.1, h.2.1, h.2.2.1, h.2.2.2.1, h.2.2.2.2.1, h.2.2.2.2.2.1⟩

/-- C3 witness: high-water-mark update at a concrete configuration
(trailing enabled, 1% trail, 0.5% activation), entry 100, after the
price path [101] with current price 99. -/
theorem update_trailing_stop_spec_witness :
    (update_trailing_stop
        { trailing_stop_enabled := true, trailing_stop_pct := 1, trailing_activation_pct := 1 / 2 }
        100
        (trailTrace
          { trailing_stop_enabled := true, trailing_stop_pct := 1, trailing_activation_pct := 1 / 2 }
          0 100 10 [101]) 99).1.highest_price =
      max (trailTrace
          { trailing_stop_enabled := true, trailing_stop_pct := 1, trailing_activation_pct := 1 / 2 }
          0 100 10 [101]).highest_price 99 :=
  (update_trailing_stop_spec
    { trailing_stop_enabled := true, trailing_stop_pct := 1, trailing_activation_pct := 1 / 2 }
    0 100 10 [101] 99 rfl (by norm_num) (by norm_num)
    (by
      intro p hp
      simp at hp
      rw [hp]
      norm_num)
    (by norm_num)).1

set_option linter.unnecessarySeqFocus false in
theorem closedFilterSum_set (l : List PartialPosition) (i : ℕ) (p p' : PartialPosition)
    (hg : l.get? i = some p) (hop : p.is_closed = false) (hcl : p'.is_closed = true) :
    (((l.set i p').filter fun q => q.is_closed).map fun q => q.volume).sum =
      ((l.filter fun q => q.is_closed).map fun q => q.volume).sum + p'.volume := by
  induction l generalizing i with
  | nil => simp at hg
  | cons a l ih =>
    cases i with
    | zero =>
      simp only [List.get?_cons_zero, Option.some_inj] at hg
      subst hg
      simp [List.filter_cons, hop, hcl]
      ring
    | succ n =>
      simp only [List.get?_cons_succ] at hg
      by_cases ha : a.is_closed <;>
        simp [List.filter_cons, ha, ih n hg] <;> ring

theorem get_set_self (l : List PartialPosition) (i : ℕ) (p' : PartialPosition)
    (hi : i < (l.set i p').length) : (l.set i p').get ⟨i, hi⟩ = p' := by
  simp [List.get_eq_getElem, List.getElem_set]

theorem get_set_other (l : List PartialPosition) (i j : ℕ) (p' : PartialPosition) (hij : i ≠ j)
    (hj : j < (l.set i p').length) (hj' : j < l.length) :
    (l.set i p').get ⟨j, hj⟩ = l.get ⟨j, hj'⟩ := by
  simp [List.get_eq_getElem, List.getElem_set, hij]

/-- Invariant of the partial-close state: as many slices as ratios, the
level index within bounds, the closed slices exactly the indices below
the level index, and closed volume plus `remaining_volume` equal to the
entry volume `V`. -/
def partialInv (cfg : TrailConfig) (V : ℚ) (s : TrailState) : Prop :=
  s.partial_positions.length = cfg.partial_close_ratios.length ∧
  s.next_partial_level_idx ≤ cfg.partial_close_levels.length ∧
  (∀ i (hi : i < s.partial_positions.length),
    (s.partial_positions.get ⟨i, hi⟩).is_closed = true ↔ i < s.next_partial_level_idx) ∧
  closedVolume s + s.remaining_volume = V

theorem closedFilterSum_all_open (l : List PartialPosition)
    (h : ∀ p ∈ l, p.is_closed = false) :
    ((l.filter fun q => q.is_closed).map fun q => q.volume).sum = 0 := by
  induction l with
  | nil => rfl
  | cons a l ih =>
    have ha : a.is_closed = false := h a (List.mem_cons_self _ _)
    simp [List.filter_cons, ha]
    exact ih fun p hp => h p (List.mem_cons_of_mem _ hp)

theorem partialInv_setup (cfg : TrailConfig) (now entry V : ℚ)
    (h_en : cfg.partial_close_enabled = true) :
    partialInv cfg V (setup_position_tracking cfg now entry V) := by
  unfold setup_position_tracking partialInv
  rw [if_pos h_en]
  refine ⟨by simp, by simp, ?_, ?_⟩
  · intro i hi
    simp [List.get_eq_getElem, List.getElem_map]
  · unfold closedVolume
    dsimp only
    rw [closedFilterSum_all_open]
    · simp
    · intro p hp
      obtain ⟨r, _, hr⟩ := List.mem_map.1 hp
      rw [← hr]

theorem check_partial_close_step (cfg : TrailConfig) (entry now : ℚ) (V : ℚ)
    (s : TrailState) (c : ℚ)
    (h_en : cfg.partial_close_enabled = true) (h_entry : 0 < entry)
    (h_len : cfg.partial_close_levels.length ≤ cfg.partial_close_ratios.length)
    (hinv : partialInv cfg V s) :
    partialInv cfg V (check_partial_close cfg entry now s c).1 ∧
    (((check_partial_close cfg entry now s c).1.next_partial_level_idx =
          s.next_partial_level_idx ∧
        (check_partial_close cfg entry now s c).2 = none) ∨
      ((check_partial_close cfg entry now s c).1.next_partial_level_idx =
          s.next_partial_level_idx + 1 ∧
        s.next_partial_level_idx < cfg.partial_close_levels.length ∧
        cfg.partial_close_levels.getD s.next_partial_level_idx 0 ≤ (c - entry) / entry * 100 ∧
        ∃ hi : s.next_partial_level_idx < s.partial_positions.length,
          (s.partial_positions.get ⟨s.next_partial_level_idx, hi⟩).is_closed = false ∧
          (check_partial_close cfg entry now s c).2 =
            some { action := "sell", price := some c,
                   volume := some (s.partial_positions.get
                     ⟨s.next_partial_level_idx, hi⟩).volume,
                   reason := "partial close" })) := by
  obtain ⟨hlen, hidx, hpre, hsum⟩ := hinv
  have hguard : ¬ (cfg.partial_close_enabled = false ∨ entry ≤ 0) := by
    simp [h_en]
    linarith
  by_cases h2 : cfg.partial_close_levels.length ≤ s.next_partial_level_idx
  · have hred : check_partial_close cfg entry now s c = (s, none) := by
      unfold check_partial_close
      rw [if_neg hguard, if_pos h2]
    rw [hred]
    exact ⟨⟨hlen, hidx, hpre, hsum⟩, Or.inl ⟨rfl, rfl⟩⟩
  · by_cases h3 : cfg.partial_close_levels.getD s.next_partial_level_idx 0 ≤
        (c - entry) / entry * 100
    · push_neg at h2
      have hi : s.next_partial_level_idx < s.partial_positions.length := by omega
      have hopen : (s.partial_positions.get ⟨s.next_partial_level_idx, hi⟩).is_closed = false := by
        have h := hpre s.next_partial_level_idx hi
        rcases hb : (s.partial_positions.get ⟨s.next_partial_level_idx, hi⟩).is_closed with _ | _
        · rfl
        · exact absurd (h.mp hb) (by omega)
      have hred : check_partial_close cfg entry now s c =
          ({ s with
              partial_positions := s.partial_positions.set s.next_partial_level_idx
                { s.partial_positions.get ⟨s.next_partial_level_idx, hi⟩ with
                  is_closed := true, close_price := c, close_time := now }
              remaining_volume := s.remaining_volume -
                (s.partial_positions.get ⟨s.next_partial_level_idx, hi⟩).volume
              next_partial_level_idx := s.next_partial_level_idx + 1 },
           some { action := "sell", price := some c,
                  volume := some (s.partial_positions.get
                    ⟨s.next_partial_level_idx, hi⟩).volume,
                  reason := "partial close" }) := by
        unfold check_partial_close
        rw [if_neg hguard, if_neg (by omega), if_pos h3, List.get?_eq_get hi]
        dsimp only
        rw [if_pos hopen]
      rw [hred]
      dsimp only
      refine ⟨⟨by simpa using hlen, by dsimp only; omega, ?_, ?_⟩, ?_⟩
      · intro i hi'
        have hi'' : i < s.partial_positions.length := by simpa using hi'
        by_cases hij : i = s.next_partial_level_idx
        · subst hij
          rw [get_set_self]
          dsimp only
          simp
        · rw [get_set_other _ _ _ _ (Ne.symm hij) _ hi'']
          rw [hpre i hi'']
          dsimp only
          omega
      · unfold closedVolume at hsum ⊢
        dsimp only
        rw [closedFilterSum_set s.partial_positions s.next_partial_level_idx
          (s.partial_positions.get ⟨s.next_partial_level_idx, hi⟩) _
          (List.get?_eq_get hi) hopen rfl]
        dsimp only
        linarith [hsum]
      · right
        exact ⟨rfl, h2, h3, hi, hopen, rfl⟩
    · have hred : check_partial_close cfg entry now s c = (s, none) := by
        unfold check_partial_close
        rw [if_neg hguard, if_neg h2, if_neg h3]
      rw [hred]
      exact ⟨⟨hlen, hidx, hpre, hsum⟩, Or.inl ⟨rfl, rfl⟩⟩


theorem partialInv_foldl (cfg : TrailConfig) (entry now V : ℚ)
    (h_en : cfg.partial_close_enabled = true) (h_entry : 0 < entry)
    (h_len : cfg.partial_close_levels.length ≤ cfg.partial_close_ratios.length) :
    ∀ (ps : List ℚ) (s : TrailState), partialInv cfg V s →
      partialInv cfg V (ps.foldl (fun s c => (check_partial_close cfg entry now s c).1) s) := by
  intro ps
  induction ps with
  | nil =>
    intro s h
    exact h
  | cons p rest ih =>
    intro s hinv
    rw [List.foldl_cons]
    exact ih _ (check_partial_close_step cfg entry now V s p h_en h_entry h_len hinv).1

/-- C4: with partial close enabled, `entry_price > 0` and at least as many
`partial_close_ratios` as `partial_close_levels`, after
`setup_position_tracking` with entry volume `V` and any sequence of
`check_partial_close` calls: the closed slices are exactly the indices
below `next_partial_level_idx` (a prefix of `0..N-1`, each slice closed
at most once in left-to-right order), the closed volumes plus
`remaining_volume` always sum to `V`, and one more call either leaves the
level index unchanged and emits nothing, or — exactly when the gain
reaches the next level — closes the next open slice, advances the index
by one and emits a sell for that slice's volume. -/
theorem check_partial_close_spec (cfg : TrailConfig) (now entry V : ℚ) (ps : List ℚ) (c : ℚ)
    (h_en : cfg.partial_close_enabled = true) (h_entry : 0 < entry)
    (h_len : cfg.partial_close_levels.length ≤ cfg.partial_close_ratios.length) :
    (∀ i (hi : i < (partialTrace cfg now entry V ps).partial_positions.length),
      ((partialTrace cfg now entry V ps).partial_positions.get ⟨i, hi⟩).is_closed = true ↔
        i < (partialTrace cfg now entry V ps).next_partial_level_idx) ∧
    (partialTrace cfg now entry V ps).next_partial_level_idx ≤
      cfg.partial_close_levels.length ∧
    (partialTrace cfg now entry V ps).partial_positions.length =
      cfg.partial_close_ratios.length ∧
    closedVolume (partialTrace cfg now entry V ps) +
      (partialTrace cfg now entry V ps).remaining_volume = V ∧
    (((check_partial_close cfg entry now (partialTrace cfg now entry V ps) c).1.next_partial_level_idx =
          (partialTrace cfg now entry V ps).next_partial_level_idx ∧
        (check_partial_close cfg entry now (partialTrace cfg now entry V ps) c).2 = none) ∨
      ((check_partial_close cfg entry now (partialTrace cfg now entry V ps) c).1.next_partial_level_idx =
          (partialTrace cfg now entry V ps).next_partial_level_idx + 1 ∧
        (partialTrace cfg now entry V ps).next_partial_level_idx <
          cfg.partial_close_levels.length ∧
        cfg.partial_close_levels.getD
            (partialTrace cfg now entry V ps).next_partial_level_idx 0 ≤
          (c - entry) / entry * 100 ∧
        ∃ hi : (partialTrace cfg now entry V ps).next_partial_level_idx <
            (partialTrace cfg now entry V ps).partial_positions.length,
          ((partialTrace cfg now entry V ps).partial_positions.get
            ⟨(partialTrace cfg now entry V ps).next_partial_level_idx, hi⟩).is_closed = false ∧
          (check_partial_close cfg entry now (partialTrace cfg now entry V ps) c).2 =
            some { action := "sell", price := some c,
                   volume := some ((partialTrace cfg now entry V ps).partial_positions.get
                     ⟨(partialTrace cfg now entry V ps).next_partial_level_idx, hi⟩).volume,
                   reason := "partial close" })) := by
  have hinv : partialInv cfg V (partialTrace cfg now entry V ps) := by
    unfold partialTrace
    exact partialInv_foldl cfg entry now V h_en h_entry h_len ps _
      (partialInv_setup cfg now entry V h_en)
  have hstep := check_partial_close_step cfg entry now V
    (partialTrace cfg now entry V ps) c h_en h_entry h_len hinv
  obtain ⟨hlen, hidx, hpre, hsum⟩ := hinv
  exact ⟨hpre, hidx, hlen, hsum, hstep.2⟩

/-- C4 witness: the volume-conservation conjunct at the default
partial-close configuration, entry 200, volume 10 and price path [201]. -/
theorem check_partial_close_spec_witness :
    closedVolume (partialTrace { partial_close_enabled := true } 0 200 10 [201]) +
      (partialTrace { partial_close_enabled := true } 0 200 10 [201]).remaining_volume = 10 :=
  (check_partial_close_spec { partial_close_enabled := true } 0 200 10 [201] 202
    rfl (by norm_num) (by decide)).2.2.2.1


theorem lookup_cons {α : Type} (a1 : String) (a2 : α) (m : List (String × α)) (k : String) :
    List.lookup k ((a1, a2) :: m) = if k = a1 then some a2 else List.lookup k m := by
  rcases eq_or_ne k a1 with h | h
  · simp [List.lookup, h]
  · have hb : (k == a1) = false := beq_eq_false_iff_ne.2 h
    simp [List.lookup, hb, h]

theorem lookup_overwrite_self {α : Type} (m : List (String × α)) (k : String) (v : α)
    (hs : (List.lookup k m).isSome) :
    List.lookup k (m.map fun kv => if kv.1 = k then (k, v) else kv) = some v := by
  induction m with
  | nil => simp at hs
  | cons a m ih =>
    obtain ⟨a1, a2⟩ := a
    by_cases h : a1 = k
    · simp [h, lookup_cons]
    · rw [lookup_cons, if_neg (Ne.symm h)] at hs
      simpa [h, lookup_cons, Ne.symm h] using ih hs

theorem lookup_overwrite_ne {α : Type} (m : List (String × α)) (k k' : String) (v : α)
    (h : ¬ k = k') :
    List.lookup k (m.map fun kv => if kv.1 = k' then (k', v) else kv) = List.lookup k m := by
  induction m with
  | nil => rfl
  | cons a m ih =>
    obtain ⟨a1, a2⟩ := a
    by_cases h1 : a1 = k'
    · subst h1
      simpa [lookup_cons, h] using ih
    · by_cases h2 : k = a1
      · simp [lookup_cons, h1, h2]
      · simpa [lookup_cons, h1, h2] using ih

theorem lookup_append_single_self {α : Type} (m : List (String × α)) (k : String) (v : α)
    (hn : List.lookup k m = none) :
    List.lookup k (m ++ [(k, v)]) = some v := by
  induction m with
  | nil => simp [lookup_cons]
  | cons a m ih =>
    obtain ⟨a1, a2⟩ := a
    rcases eq_or_ne k a1 with h | h
    · rw [lookup_cons, if_pos h] at hn
      simp at hn
    · rw [lookup_cons, if_neg h] at hn
      rw [List.cons_append, lookup_cons, if_neg h]
      exact ih hn

theorem lookup_append_single_ne {α : Type} (m : List (String × α)) (k k' : String) (v : α)
    (h : ¬ k = k') :
    List.lookup k (m ++ [(k', v)]) = List.lookup k m := by
  induction m with
  | nil => simp [lookup_cons, h]
  | cons a m ih =>
    obtain ⟨a1, a2⟩ := a
    rw [List.cons_append, lookup_cons, lookup_cons]
    rcases eq_or_ne k a1 with h2 | h2
    · simp [h2]
    · simp [h2, ih]

theorem lookup_aset_self {α : Type} (m : List (String × α)) (k : String) (v : α) :
    List.lookup k (aset m k v) = some v := by
  unfold aset
  split_ifs with hs
  · exact lookup_overwrite_self m k v hs
  · exact lookup_append_single_self m k v (Option.not_isSome_iff_eq_none.1 hs)

theorem lookup_aset_ne {α : Type} (m : List (String × α)) (k k' : String) (v : α)
    (h : ¬ k = k') :
    List.lookup k (aset m k' v) = List.lookup k m := by
  unfold aset
  split_ifs with hs
  · exact lookup_overwrite_ne m k k' v h
  · exact lookup_append_single_ne m k k' v h

theorem lookup_apop_self {α : Type} (m : List (String × α)) (k : String) :
    List.lookup k (apop m k) = none := by
  induction m with
  | nil => rfl
  | cons a m ih =>
    obtain ⟨a1, a2⟩ := a
    by_cases h : a1 = k
    · simpa [apop, h] using ih
    · simpa [apop, lookup_cons, h, Ne.symm h] using ih

theorem lookup_apop_ne {α : Type} (m : List (String × α)) (k k' : String) (h : ¬ k = k') :
    List.lookup k (apop m k') = List.lookup k m := by
  induction m with
  | nil => rfl
  | cons a m ih =>
    obtain ⟨a1, a2⟩ := a
    by_cases h1 : a1 = k'
    · subst h1
      simpa [apop, lookup_cons, h] using ih
    · by_cases h2 : k = a1
      · simp [apop, lookup_cons, h1, h2]
      · simpa [apop, lookup_cons, h1, h2] using ih

theorem lookup_foldl_apop_none {α : Type} (ks : List String) :
    ∀ (m : List (String × α)) (k : String), List.lookup k m = none →
      List.lookup k (ks.foldl apop m) = none := by
  induction ks with
  | nil =>
    intro m k h
    exact h
  | cons k' ks ih =>
    intro m k h
    rw [List.foldl_cons]
    by_cases h1 : k = k'
    · subst h1
      exact ih _ _ (lookup_apop_self m k)
    · exact ih _ _ ((lookup_apop_ne m k k' h1).trans h)

theorem lookup_foldl_apop_mem {α : Type} (ks : List String) :
    ∀ (m : List (String × α)) (k : String), k ∈ ks →
      List.lookup k (ks.foldl apop m) = none := by
  induction ks with
  | nil =>
    intro m k h
    simp at h
  | cons k' ks ih =>
    intro m k h
    rw [List.foldl_cons]
    by_cases h1 : k = k'
    · subst h1
      exact lookup_foldl_apop_none ks _ k (lookup_apop_self m k)
    · exact ih _ k (by simpa [h1] using h)

theorem lookup_foldl_apop_ne {α : Type} (ks : List String) :
    ∀ (m : List (String × α)) (k : String), ¬ k ∈ ks →
      List.lookup k (ks.foldl apop m) = List.lookup k m := by
  induction ks with
  | nil =>
    intro m k _
    rfl
  | cons k' ks ih =>
    intro m k h
    rw [List.foldl_cons]
    have h1 : ¬ k = k' := fun he => h (by simp [he])
    rw [ih _ k (fun hm => h (by simp [hm])), lookup_apop_ne m k k' h1]

theorem lookup_foldl_aset_ne {α : Type} (f : List (String × α) → String → α)
    (ks : List String) :
    ∀ (m : List (String × α)) (k : String), ¬ k ∈ ks →
      List.lookup k (ks.foldl (fun m s => aset m s (f m s)) m) = List.lookup k m := by
  induction ks with
  | nil =>
    intro m k _
    rfl
  | cons k' ks ih =>
    intro m k h
    rw [List.foldl_cons]
    have h1 : ¬ k = k' := fun he => h (by simp [he])
    rw [ih _ k (fun hm => h (by simp [hm])), lookup_aset_ne _ k k' _ h1]

theorem lookup_foldl_aset_mem {α : Type} (f : List (String × α) → String → α)
    (ks : List String) :
    ∀ (m : List (String × α)) (k : String), k ∈ ks → ks.Nodup →
      ∃ m', List.lookup k (ks.foldl (fun m s => aset m s (f m s)) m) = some (f m' k) ∧
        List.lookup k m' = List.lookup k m := by
  induction ks with
  | nil =>
    intro m k h _
    simp at h
  | cons k' ks ih =>
    intro m k h hnd
    rw [List.foldl_cons]
    by_cases h1 : k = k'
    · subst h1
      have hnotin : ¬ k ∈ ks := (List.nodup_cons.1 hnd).1
      refine ⟨m, ?_, rfl⟩
      rw [lookup_foldl_aset_ne f ks _ k hnotin, lookup_aset_self]
    · obtain ⟨mx, hmx, hlk⟩ := ih (aset m k' (f m k')) k (by simpa [h1] using h)
        (List.nodup_cons.1 hnd).2
      exact ⟨mx, hmx, hlk.trans (lookup_aset_ne m k k' _ h1)⟩

theorem lookup_eq_none_of_not_mem_keys {α : Type} (m : List (String × α)) (k : String)
    (h : ¬ k ∈ m.map fun kv => kv.1) : List.lookup k m = none := by
  induction m with
  | nil => rfl
  | cons a m ih =>
    obtain ⟨a1, a2⟩ := a
    rw [lookup_cons, if_neg (fun he => h (by simp [he]))]
    exact ih fun hm => h (by simp; right; simpa using hm)

theorem countP_eq_one_of_nodup {α : Type} (l : List α) (p : α → Bool) (a : α) :
    l.Nodup → a ∈ l → p a = true → (∀ x ∈ l, ¬ x = a → p x = false) →
    l.countP p = 1 := by
  induction l with
  | nil =>
    intro _ ha
    simp at ha
  | cons b l ih =>
    intro hnd ha hpa hother
    rw [List.countP_cons]
    rcases List.mem_cons.1 ha with hba | hmem
    · subst hba
      have hz : l.countP p = 0 := by
        rw [List.countP_eq_zero]
        intro x hx
        have hxa : ¬ x = a := fun he => (List.nodup_cons.1 hnd).1 (he ▸ hx)
        simp [hother x (List.mem_cons_of_mem _ hx) hxa]
      simp [hz, hpa]
    · have hb : ¬ b = a := fun he => (List.nodup_cons.1 hnd).1 (he ▸ hmem)
      rw [ih (List.nodup_cons.1 hnd).2 hmem hpa
        (fun x hx hxa => hother x (List.mem_cons_of_mem _ hx) hxa)]
      simp [hother b (List.mem_cons_self _ _) hb]

/-- Whether an `order_q` message is a full-balance market sell of `sym`. -/
def isSellAllOf (sym : String) (vol : ℚ) : ApiRequest → Bool
  | ApiRequest.marketOrder m sd v _ => decide (m = sym) && decide (sd = "sell") && decide (v = vol)
  | _ => false

/-- Whether an `order_q` message is a balance query for `sym`. -/
def isBalanceQueryOf (sym : String) : ApiRequest → Bool
  | ApiRequest.balanceQuery t _ => decide (t = sym)
  | _ => false

/-- Whether an `order_q` message is a balance query at all. -/
def isBalanceQuery : ApiRequest → Bool
  | ApiRequest.balanceQuery _ _ => true
  | _ => false

/-- C7 (amended): on a rebind, every removed symbol with positive coin
balance triggers exactly one full-balance market sell and exactly one
`sell_order` correlation record with reason `symbol_removed`, and is
removed from the risk/balance/price maps; every added symbol gets a
fresh `RiskManager` entry, zero balance and price entries, and exactly
one coin-balance query — a single `get_balance` request, not the
balance-query *pair* the claim states (no KRW query is issued here). -/
theorem rebind_symbols_spec (maxPos : String → ℚ) (new_symbols : List String)
    (risk_managers coin_balances last_prices : List (String × ℚ))
    (pending_requests : List (String × ReqInfo))
    (h_nodup : (risk_managers.map fun kv => kv.1).Nodup)
    (h_coin : ∀ k, k ∈ (coin_balances.map fun kv => kv.1) →
      k ∈ (risk_managers.map fun kv => kv.1))
    (h_prices : ∀ k, k ∈ (last_prices.map fun kv => kv.1) →
      k ∈ (risk_managers.map fun kv => kv.1)) :
    (∀ sym ∈ rebindRemoved new_symbols risk_managers,
      0 < (List.lookup sym coin_balances).getD 0 →
      (rebind_symbols maxPos new_symbols risk_managers coin_balances last_prices
          pending_requests).orders.countP
        (isSellAllOf sym ((List.lookup sym coin_balances).getD 0)) = 1 ∧
      ((rebind_symbols maxPos new_symbols risk_managers coin_balances last_prices
          pending_requests).pending_requests.drop pending_requests.length).countP
        (fun kv => decide (kv.2 = ReqInfo.sell_order sym
          ((List.lookup sym last_prices).getD 0)
          ((List.lookup sym coin_balances).getD 0) "symbol_removed")) = 1) ∧
    (∀ sym ∈ rebindRemoved new_symbols risk_managers,
      List.lookup sym (rebind_symbols maxPos new_symbols risk_managers coin_balances
        last_prices pending_requests).risk_managers = none ∧
      List.lookup sym (rebind_symbols maxPos new_symbols risk_managers coin_balances
        last_prices pending_requests).coin_balances = none ∧
      List.lookup sym (rebind_symbols maxPos new_symbols risk_managers coin_balances
        last_prices pending_requests).last_prices = none) ∧
    (∀ sym ∈ rebindAdded new_symbols risk_managers,
      List.lookup sym (rebind_symbols maxPos new_symbols risk_managers coin_balances
        last_prices pending_requests).risk_managers = some (maxPos sym) ∧
      List.lookup sym (rebind_symbols maxPos new_symbols risk_managers coin_balances
        last_prices pending_requests).coin_balances = some 0 ∧
      List.lookup sym (rebind_symbols maxPos new_symbols risk_managers coin_balances
        last_prices pending_requests).last_prices = some 0 ∧
      (rebind_symbols maxPos new_symbols risk_managers coin_balances last_prices
          pending_requests).orders.countP (isBalanceQueryOf sym) = 1) := by
  have hnd_removed : (rebindRemoved new_symbols risk_managers).Nodup :=
    h_nodup.filter _
  have hnd_added : (rebindAdded new_symbols risk_managers).Nodup :=
    (List.nodup_dedup new_symbols).filter _
  have hrem_cur : ∀ sym ∈ rebindRemoved new_symbols risk_managers,
      sym ∈ (risk_managers.map fun kv => kv.1) := by
    intro sym h
    exact (List.mem_filter.1 h).1
  have hadd_not_cur : ∀ sym ∈ rebindAdded new_symbols risk_managers,
      ¬ sym ∈ (risk_managers.map fun kv => kv.1) := by
    intro sym h
    have := (List.mem_filter.1 h).2
    simpa using this
  have hrem_not_added : ∀ sym ∈ rebindRemoved new_symbols risk_managers,
      ¬ sym ∈ rebindAdded new_symbols risk_managers := by
    intro sym h hc
    exact hadd_not_cur sym hc (hrem_cur sym h)
  have hadd_not_removed : ∀ sym ∈ rebindAdded new_symbols risk_managers,
      ¬ sym ∈ rebindRemoved new_symbols risk_managers := by
    intro sym h hc
    exact hadd_not_cur sym h (hrem_cur sym hc)
  refine ⟨?_, ?_, ?_⟩
  · intro sym hsym hbal
    constructor
    · simp only [rebind_symbols, List.countP_append]
      have hz : ((rebindAdded new_symbols risk_managers).map fun sym =>
            ApiRequest.balanceQuery sym ("rebind-bal:" ++ sym)).countP
          (isSellAllOf sym ((List.lookup sym coin_balances).getD 0)) = 0 := by
        rw [List.countP_eq_zero]
        intro r hr
        obtain ⟨s, _, rfl⟩ := List.mem_map.1 hr
        simp [isSellAllOf]
      rw [hz, List.map_filterMap, List.countP_filterMap]
      rw [countP_eq_one_of_nodup _ _ sym hnd_removed hsym]
      · simp only [rebindSellFor]
        rw [if_pos hbal]
        simp [isSellAllOf]
      · intro x hx hxs
        simp only [rebindSellFor]
        by_cases hb : 0 < (List.lookup x coin_balances).getD 0
        · rw [if_pos hb]
          simp [isSellAllOf, hxs]
        · rw [if_neg hb]
          rfl
    · simp only [rebind_symbols]
      rw [List.append_assoc, List.drop_left, List.countP_append]
      have hz : ((rebindAdded new_symbols risk_managers).map fun sym =>
            (("rebind-bal:" ++ sym), ReqInfo.balance_coin sym)).countP
          (fun kv => decide (kv.2 = ReqInfo.sell_order sym
            ((List.lookup sym last_prices).getD 0)
            ((List.lookup sym coin_balances).getD 0) "symbol_removed")) = 0 := by
        rw [List.countP_eq_zero]
        intro r hr
        obtain ⟨s, _, rfl⟩ := List.mem_map.1 hr
        simp
      rw [hz, List.map_filterMap, List.countP_filterMap]
      rw [countP_eq_one_of_nodup _ _ sym hnd_removed hsym]
      · simp only [rebindSellFor]
        rw [if_pos hbal]
        simp
      · intro x hx hxs
        simp only [rebindSellFor]
        by_cases hb : 0 < (List.lookup x coin_balances).getD 0
        · rw [if_pos hb]
          simp [hxs]
        · rw [if_neg hb]
          rfl
  · intro sym hsym
    have h1 : ∀ (m : List (String × ℚ)),
        List.lookup sym ((rebindRemoved new_symbols risk_managers).foldl apop m) = none :=
      fun m => lookup_foldl_apop_mem _ m sym hsym
    have hna := hrem_not_added sym hsym
    refine ⟨?_, ?_, ?_⟩ <;>
      · simp only [rebind_symbols]
        exact (lookup_foldl_aset_ne _ _ _ sym hna).trans (h1 _)
  · intro sym hsym
    have hncur := hadd_not_cur sym hsym
    have hnrem : ¬ sym ∈ rebindRemoved new_symbols risk_managers :=
      hadd_not_removed sym hsym
    refine ⟨?_, ?_, ?_, ?_⟩
    · simp only [rebind_symbols]
      obtain ⟨mx, hmx, _⟩ := lookup_foldl_aset_mem (fun _ s => maxPos s)
        (rebindAdded new_symbols risk_managers) _ sym hsym hnd_added
      exact hmx
    · simp only [rebind_symbols]
      obtain ⟨mx, hmx, hlk⟩ := lookup_foldl_aset_mem
        (fun m s => (List.lookup s m).getD 0)
        (rebindAdded new_symbols risk_managers)
        ((rebindRemoved new_symbols risk_managers).foldl apop coin_balances)
        sym hsym hnd_added
      rw [hmx]
      have hcoin_none : List.lookup sym coin_balances = none :=
        lookup_eq_none_of_not_mem_keys _ _ (fun hm => hncur (h_coin sym hm))
      rw [hlk.trans ((lookup_foldl_apop_ne _ _ sym hnrem).trans hcoin_none)]
      rfl
    · simp only [rebind_symbols]
      obtain ⟨mx, hmx, hlk⟩ := lookup_foldl_aset_mem
        (fun m s => (List.lookup s m).getD 0)
        (rebindAdded new_symbols risk_managers)
        ((rebindRemoved new_symbols risk_managers).foldl apop last_prices)
        sym hsym hnd_added
      rw [hmx]
      have hprices_none : List.lookup sym last_prices = none :=
        lookup_eq_none_of_not_mem_keys _ _ (fun hm => hncur (h_prices sym hm))
      rw [hlk.trans ((lookup_foldl_apop_ne _ _ sym hnrem).trans hprices_none)]
      rfl
    · simp only [rebind_symbols, List.countP_append]
      have hz : (((rebindRemoved new_symbols risk_managers).filterMap
            (rebindSellFor coin_balances last_prices)).map
          (fun e => e.1)).countP (isBalanceQueryOf sym) = 0 := by
        rw [List.countP_eq_zero]
        intro r hr
        rw [List.map_filterMap] at hr
        obtain ⟨s, _, hs⟩ := List.mem_filterMap.1 hr
        unfold rebindSellFor at hs
        by_cases hb : 0 < (List.lookup s coin_balances).getD 0
        · rw [if_pos hb] at hs
          simp at hs
          rw [← hs]
          simp [isBalanceQueryOf]
        · rw [if_neg hb] at hs
          simp at hs
      rw [hz, List.countP_map]
      rw [countP_eq_one_of_nodup _ _ sym hnd_added hsym]
      · simp [isBalanceQueryOf]
      · intro x hx hxs
        simp [isBalanceQueryOf, hxs]
      

/-- C7 counterexample: a rebind that adds `KRW-ETH` enqueues exactly one
balance query for it (a single coin-balance `get_balance`), not a
balance-query pair. -/
theorem rebind_adds_single_balance_query :
    (rebind_symbols (fun _ => 100000) ["KRW-BTC", "KRW-ETH"]
        [("KRW-BTC", 200000)] [("KRW-BTC", 0)] [("KRW-BTC", 0)] []).orders =
      [ApiRequest.balanceQuery "KRW-ETH" "rebind-bal:KRW-ETH"] ∧
    (rebind_symbols (fun _ => 100000) ["KRW-BTC", "KRW-ETH"]
        [("KRW-BTC", 200000)] [("KRW-BTC", 0)] [("KRW-BTC", 0)] []).orders.countP
      isBalanceQuery = 1 ∧
    ¬ ((1 : ℕ) = 2) := by
  refine ⟨rfl, rfl, by norm_num⟩

/-- C7 witness: the removed-symbol sell count at a concrete rebind. -/
theorem rebind_symbols_spec_witness :
    (rebind_symbols (fun _ => 100000) ["KRW-ETH"] [("KRW-BTC", 1)] [("KRW-BTC", 2)]
        [("KRW-BTC", 3)] []).orders.countP
      (isSellAllOf "KRW-BTC" ((List.lookup "KRW-BTC" [("KRW-BTC", (2 : ℚ))]).getD 0)) = 1 :=
  ((rebind_symbols_spec (fun _ => 100000) ["KRW-ETH"] [("KRW-BTC", 1)] [("KRW-BTC", 2)]
      [("KRW-BTC", 3)] [] (by decide) (fun _ hk => hk) (fun _ hk => hk)).1
    "KRW-BTC" (by decide) (by norm_num)).1



theorem chain_le_drop_middle (a b : ℚ) (l : List ℚ)
    (h : List.Chain' (· ≤ ·) (a :: b :: l)) : List.Chain' (· ≤ ·) (a :: l) := by
  cases l with
  | nil => simp
  | cons c l =>
    rw [List.chain'_cons] at h
    obtain ⟨hab, h2⟩ := h
    rw [List.chain'_cons] at h2
    exact List.chain'_cons.2 ⟨hab.trans h2.1, h2.2⟩

theorem runTraderLoop_tick_rate (maxPos : String → ℚ) :
    ∀ (events : List LoopEvent) (st : TraderLoopState),
      List.Chain' (· ≤ ·) (st.last_order_ts :: events.map LoopEvent.time) →
      (∀ x ∈ st.submissions.filter (fun x => x.2), x.1 ≤ st.last_order_ts) →
      List.Chain' (fun a b => a.1 + ORDER_INTERVAL ≤ b.1)
        (st.submissions.filter fun x => x.2) →
      List.Chain' (fun a b => a.1 + ORDER_INTERVAL ≤ b.1)
          ((runTraderLoop maxPos st events).submissions.filter fun x => x.2) ∧
        (∀ x ∈ (runTraderLoop maxPos st events).submissions.filter (fun x => x.2),
          x.1 ≤ (runTraderLoop maxPos st events).last_order_ts) := by
  intro events
  induction events with
  | nil =>
    intro st _ hb hc
    exact ⟨hc, hb⟩
  | cons e rest ih =>
    intro st hchain hb hc
    have hrun : runTraderLoop maxPos st (e :: rest) =
        runTraderLoop maxPos (loopStep maxPos st e) rest := by
      unfold runTraderLoop
      rw [List.foldl_cons]
    rw [hrun]
    cases e with
    | tick t wants =>
      simp only [List.map_cons, LoopEvent.time] at hchain
      have hlt : st.last_order_ts ≤ t := (List.chain'_cons.1 hchain).1
      have hchain_rest : List.Chain' (· ≤ ·) (t :: rest.map LoopEvent.time) :=
        (List.chain'_cons.1 hchain).2
      by_cases hw : wants
      · by_cases hg : t - st.last_order_ts < ORDER_INTERVAL
        · have hstep : loopStep maxPos st (LoopEvent.tick t wants) = st := by
            simp [loopStep, hw, hg]
          rw [hstep]
          exact ih st (chain_le_drop_middle _ _ _ hchain) hb hc
        · have hstep : loopStep maxPos st (LoopEvent.tick t wants) =
              { st with last_order_ts := t, submissions := st.submissions ++ [(t, true)] } := by
            simp [loopStep, hw, hg]
          rw [hstep]
          apply ih
          · simpa using hchain_rest
          · intro x hx
            simp only [List.filter_append] at hx
            rcases List.mem_append.1 hx with hx1 | hx2
            · exact (hb x hx1).trans hlt
            · simp at hx2
              simp [hx2]
          · simp only [List.filter_append]
            rw [List.chain'_append]
            refine ⟨hc, by simp, ?_⟩
            intro x hx y hy
            have hxm : x ∈ st.submissions.filter (fun x => x.2) :=
              List.mem_of_mem_getLast? hx
            have hxle : x.1 ≤ st.last_order_ts := hb x hxm
            have hyt : y = (t, true) := by
              simp at hy
              exact hy.symm
            rw [hyt]
            push_neg at hg
            simpa using le_trans (by linarith : x.1 + ORDER_INTERVAL ≤ st.last_order_ts + ORDER_INTERVAL) (by linarith)
      · have hstep : loopStep maxPos st (LoopEvent.tick t wants) = st := by
          simp [loopStep, hw]
        rw [hstep]
        exact ih st (chain_le_drop_middle _ _ _ hchain) hb hc
    | rebind t new_syms =>
      simp only [List.map_cons, LoopEvent.time] at hchain
      have hstep : (loopStep maxPos st (LoopEvent.rebind t new_syms)).submissions =
          st.submissions ++ ((rebind_symbols maxPos new_syms st.risk_managers
            st.coin_balances st.last_prices st.pending_requests).orders.filter
              ApiRequest.isOrder).map (fun _ => (t, false)) := by
        simp [loopStep]
      have hlast : (loopStep maxPos st (LoopEvent.rebind t new_syms)).last_order_ts =
          st.last_order_ts := by
        simp [loopStep]
      have hfilter : (loopStep maxPos st (LoopEvent.rebind t new_syms)).submissions.filter
          (fun x => x.2) = st.submissions.filter (fun x => x.2) := by
        rw [hstep, List.filter_append, List.filter_map]
        have : ((rebind_symbols maxPos new_syms st.risk_managers st.coin_balances
            st.last_prices st.pending_requests).orders.filter ApiRequest.isOrder).filter
              ((fun x => x.2) ∘ fun _ => ((t : ℚ), false)) = [] := by
          apply List.filter_eq_nil_iff.2
          intro a _
          simp
        rw [this]
        simp
      apply ih
      · rw [hlast]
        exact chain_le_drop_middle _ _ _ hchain
      · rw [hfilter, hlast]
        exact hb
      · rw [hfilter]
        exact hc

/-- C5 counterexample: a rebind that removes two held symbols submits two
market sells in the same loop iteration, bypassing `last_order_ts`, so
the submission times do not differ by `ORDER_INTERVAL`. -/
theorem rebind_sells_bypass_rate_gate :
    (runTraderLoop (fun _ => 100000)
        { last_order_ts := 0, risk_managers := [("A", 1), ("B", 1)],
          coin_balances := [("A", 1), ("B", 1)], last_prices := [("A", 5), ("B", 6)],
          pending_requests := [], submissions := [] }
        [LoopEvent.rebind 0 []]).submissions = [(0, false), (0, false)] ∧
    ¬ List.Pairwise (fun a b => a.1 + ORDER_INTERVAL ≤ b.1)
      [((0 : ℚ), false), ((0 : ℚ), false)] := by
  constructor
  · rfl
  · intro h
    have h2 := (List.pairwise_cons.1 h).1 (0, false) (by simp)
    norm_num [ORDER_INTERVAL] at h2

/-- C5 (amended): tick-driven order submissions — gated by
`last_order_ts` — are pairwise at least `ORDER_INTERVAL` apart for every
event sequence with non-decreasing wall-clock times; the market sells
emitted by `rebind_symbols` during a symbol-set rebind bypass this gate
(they neither consult nor update `last_order_ts`), so the claim fails
once those are included. -/
theorem trader_tick_rate_limit (maxPos : String → ℚ) (st0 : TraderLoopState)
    (events : List LoopEvent)
    (h0 : st0.submissions = [])
    (hchain : List.Chain' (· ≤ ·) (st0.last_order_ts :: events.map LoopEvent.time)) :
    List.Pairwise (fun a b => a.1 + ORDER_INTERVAL ≤ b.1)
      ((runTraderLoop maxPos st0 events).submissions.filter fun x => x.2) := by
  haveI : IsTrans (ℚ × Bool) (fun a b => a.1 + ORDER_INTERVAL ≤ b.1) := by
    refine ⟨fun a b c hab hbc => ?_⟩
    have h : (0 : ℚ) ≤ ORDER_INTERVAL := by norm_num [ORDER_INTERVAL]
    simp only at hab hbc ⊢
    linarith
  exact List.chain'_iff_pairwise.1
    (runTraderLoop_tick_rate maxPos events st0 hchain (by simp [h0]) (by simp [h0])).1

/-- C5 witness: the rate-gate theorem at a concrete two-tick schedule. -/
theorem trader_tick_rate_limit_witness :
    List.Pairwise (fun a b => a.1 + ORDER_INTERVAL ≤ b.1)
      ((runTraderLoop (fun _ => 100000)
        { last_order_ts := 0, risk_managers := [], coin_balances := [],
          last_prices := [], pending_requests := [], submissions := [] }
        [LoopEvent.tick 1 true, LoopEvent.tick (11 / 10) true]).submissions.filter
        fun x => x.2) :=
  trader_tick_rate_limit (fun _ => 100000) _ _ rfl (by
    constructor
    · norm_num [LoopEvent.time]
    · constructor
      · norm_num [LoopEvent.time]
      · simp)



/-- C9: when a `buy_order`/`sell_order` submission response carries no
`uuid` (exchange rejection), `Trader.run` installs no `PendingOrder`,
emits a single `[BUY ERROR]`/`[SELL ERROR]` notification, sends no
follow-up request and writes no trade-log row, and leaves balances,
strategies (positions) and `pending_orders` unchanged — only the
request correlation is retired from `pending_requests`. -/
theorem submission_rejection_spec (st : TraderRespState) (now : ℚ) (r : ApiResponse)
    (sym : String) (price volume : ℚ) (reason : String)
    (h_info : List.lookup r.request_id st.pending_requests =
        some (ReqInfo.buy_order sym price volume reason) ∨
      List.lookup r.request_id st.pending_requests =
        some (ReqInfo.sell_order sym price volume reason))
    (h_uuid : r.uuid = none) :
    (processResponse st now r).state.pending_orders = st.pending_orders ∧
    (processResponse st now r).state.krw_balance = st.krw_balance ∧
    (processResponse st now r).state.coin_balances = st.coin_balances ∧
    (processResponse st now r).state.strategies = st.strategies ∧
    (processResponse st now r).state.active_positions = st.active_positions ∧
    (processResponse st now r).state.total_position_value = st.total_position_value ∧
    (processResponse st now r).orders = [] ∧
    (processResponse st now r).db_rows = [] ∧
    ((processResponse st now r).notices = ["[BUY ERROR] " ++ sym] ∨
      (processResponse st now r).notices = ["[SELL ERROR] " ++ sym]) ∧
    (processResponse st now r).state.pending_requests = apop st.pending_requests r.request_id := by
  rcases h_info with h | h <;>
    simp [processResponse, h, h_uuid]

/-- C9 witness: a concrete rejected buy submission. -/
theorem submission_rejection_spec_witness :
    (processResponse
        { krw_balance := 10000, coin_balances := [], pending_requests :=
            [("r1", ReqInfo.buy_order "KRW-BTC" 100 1 "entry")],
          pending_orders := [], strategies := [], active_positions := 0,
          total_position_value := 0 }
        5 { request_id := "r1", uuid := none }).state.pending_orders = [] :=
  (submission_rejection_spec
    { krw_balance := 10000, coin_balances := [], pending_requests :=
        [("r1", ReqInfo.buy_order "KRW-BTC" 100 1 "entry")],
      pending_orders := [], strategies := [], active_positions := 0,
      total_position_value := 0 }
    5 { request_id := "r1", uuid := none } "KRW-BTC" 100 1 "entry"
    (Or.inl (by rfl)) rfl).1




theorem countP_congr_mem {α : Type} (l : List α) (p q : α → Bool)
    (h : ∀ a ∈ l, p a = q a) : l.countP p = l.countP q := by
  induction l with
  | nil => rfl
  | cons a l ih =>
    rw [List.countP_cons, List.countP_cons, h a (List.mem_cons_self _ _),
      ih fun x hx => h x (List.mem_cons_of_mem _ hx)]

theorem countP_range_window_formula (c : ℤ) (n : ℕ) :
    ((List.range n).countP fun (k : ℕ) => decide (c ≤ (k : ℤ) ∧ (k : ℤ) ≤ c + 7)) =
      Int.toNat (min (n : ℤ) (c + 8) - max c 0) := by
  induction n with
  | zero =>
    simp
    omega
  | succ n ih =>
    rw [List.range_succ, List.countP_append, ih]
    by_cases h : c ≤ (n : ℤ) ∧ (n : ℤ) ≤ c + 7
    · simp only [List.countP_cons, List.countP_nil, decide_eq_true_eq, h]
      simp
      omega
    · simp only [List.countP_cons, List.countP_nil, decide_eq_true_eq, h]
      simp
      omega

theorem countP_range_window (c : ℤ) (n : ℕ) :
    ((List.range n).countP fun (k : ℕ) => decide (c ≤ (k : ℤ) ∧ (k : ℤ) ≤ c + 7)) ≤ 8 := by
  rw [countP_range_window_formula]
  omega

/-- Admissions of a drained order bucket (`tokens = 0` at `t`): the `k`-th
is delayed to `t + (k+1)/8`. -/
theorem greedy_drained : ∀ (n : ℕ) (t : ℚ),
    greedyAdmissions
        { capacity := 8, refill_rate := 8, tokens := 0, last_refill := t } t n =
      (List.range n).map (fun (k : ℕ) => t + ((k : ℚ) + 1) / 8) := by
  intro n
  induction n with
  | zero =>
    intro t
    simp [greedyAdmissions]
  | succ n ih =>
    intro t
    rw [greedyAdmissions]
    have h1 : admitTime
        { capacity := 8, refill_rate := 8, tokens := 0, last_refill := t } t 1 = t + 1 / 8 := by
      norm_num [admitTime]
    have h2 : (consume
        { capacity := 8, refill_rate := 8, tokens := 0, last_refill := t } (t + 1 / 8) 1).2 =
        { capacity := 8, refill_rate := 8, tokens := 0, last_refill := t + 1 / 8 } := by
      norm_num [consume]
    rw [h1, h2, ih (t + 1 / 8), List.range_succ_eq_map, List.map_cons, List.map_map]
    refine congrArg₂ _ (by norm_num) ?_
    apply List.map_congr_left
    intro k _
    simp [Function.comp]
    ring

/-- Admissions of an order bucket holding `j ≤ 8` whole tokens at `t`:
the first `j` requests are admitted immediately at `t`, the rest at
`1/8 s` spacing. -/
theorem greedy_from_tokens : ∀ (n j : ℕ), j ≤ 8 → ∀ (t : ℚ),
    greedyAdmissions
        { capacity := 8, refill_rate := 8, tokens := (j : ℚ), last_refill := t } t n =
      List.replicate (min n j) t ++
        (List.range (n - j)).map (fun (k : ℕ) => t + ((k : ℚ) + 1) / 8) := by
  intro n
  induction n with
  | zero =>
    intro j _ t
    simp [greedyAdmissions]
  | succ n ih =>
    intro j hj t
    cases j with
    | zero =>
      simp only [Nat.cast_zero]
      rw [greedy_drained (n + 1) t]
      simp
    | succ j' =>
      rw [greedyAdmissions]
      have hj1 : (1 : ℚ) ≤ ((j' : ℚ) + 1) := by
        have : (0 : ℚ) ≤ (j' : ℚ) := Nat.cast_nonneg j'
        linarith
      have hcast : ((Nat.succ j' : ℕ) : ℚ) = (j' : ℚ) + 1 := by
        push_cast
        ring
      have h1 : admitTime
          { capacity := 8, refill_rate := 8, tokens := ((Nat.succ j' : ℕ) : ℚ),
            last_refill := t } t 1 = t := by
        rw [admitTime]
        have hle : ((Nat.succ j' : ℕ) : ℚ) ≤ 8 := by
          rw [hcast]
          have : (j' : ℚ) ≤ 7 := by
            have hj7 : j' ≤ 7 := by omega
            exact_mod_cast hj7
          linarith
        rw [if_pos]
        simp only [sub_self, zero_mul, add_zero]
        rw [min_eq_right hle, hcast]
        linarith
      have h2 : (consume
          { capacity := 8, refill_rate := 8, tokens := ((Nat.succ j' : ℕ) : ℚ),
            last_refill := t } t 1).2 =
          { capacity := 8, refill_rate := 8, tokens := ((j' : ℕ) : ℚ),
            last_refill := t } := by
        rw [consume]
        have hle : ((Nat.succ j' : ℕ) : ℚ) ≤ 8 := by
          rw [hcast]
          have : (j' : ℚ) ≤ 7 := by
            have hj7 : j' ≤ 7 := by omega
            exact_mod_cast hj7
          linarith
        simp only [sub_self, zero_mul, add_zero]
        rw [min_eq_right hle, if_pos (by rw [hcast]; linarith)]
        simp [hcast]
      rw [h1, h2, ih j' (by omega) t]
      have hmin : min (n + 1) (Nat.succ j') = min n j' + 1 := by omega
      have hsub : n + 1 - Nat.succ j' = n - j' := by omega
      rw [hmin, hsub, List.replicate_succ]
      simp

/-- The 20-request greedy schedule of the order bucket `(8, 8/s)`: the
first 8 admitted immediately, the 9th through 20th delayed to `1/8 s`
spacing. -/
theorem order_bucket_schedule :
    greedyAdmissions (initBucket 8 8 0) 0 20 =
      List.replicate 8 (0 : ℚ) ++
        (List.range 12).map (fun (k : ℕ) => ((k : ℚ) + 1) / 8) := by
  have hb : initBucket 8 8 0 =
      { capacity := 8, refill_rate := 8, tokens := ((8 : ℕ) : ℚ), last_refill := 0 } := by
    norm_num [initBucket]
  rw [hb, greedy_from_tokens 20 8 (le_refl 8) 0]
  norm_num

theorem countP_replicate_of_true {α : Type} (n : ℕ) (x : α) (p : α → Bool)
    (h : p x = true) : (List.replicate n x).countP p = n := by
  induction n with
  | zero => rfl
  | succ n ih => simp [List.replicate_succ, List.countP_cons, h, ih]

/-- C6 counterexample: of the 20 back-to-back order-bucket acquisitions,
15 are admitted inside the single 1-second window `(-1/100, 99/100]` —
the initial burst of 8 plus 7 delayed admissions — so "no more than 8
admitted in any 1-second window" fails. -/
theorem token_bucket_burst_window :
    (greedyAdmissions (initBucket 8 8 0) 0 20).countP
      (fun t => decide (-(1 / 100) < t ∧ t ≤ 99 / 100)) = 15 ∧ ¬ ((15 : ℕ) ≤ 8) := by
  have hcg : ∀ k ∈ List.range 12,
      ((fun t => decide (-(1 / 100) < t ∧ t ≤ 99 / 100)) ∘
          fun (k : ℕ) => ((k : ℚ) + 1) / 8) k =
        (fun (k : ℕ) => decide (k ≤ 6)) k := by
    intro k _
    simp only [Function.comp_apply]
    refine decide_eq_decide.2 ?_
    constructor
    · rintro ⟨-, h2⟩
      by_contra hk7
      push_neg at hk7
      have h7 : (7 : ℚ) ≤ (k : ℚ) := by exact_mod_cast hk7
      rw [div_le_iff₀ (by norm_num : (0 : ℚ) < 8)] at h2
      linarith
    · intro h6
      have h6' : (k : ℚ) ≤ 6 := by exact_mod_cast h6
      have h0 : (0 : ℚ) ≤ (k : ℚ) := Nat.cast_nonneg k
      constructor
      · have hnn : (0 : ℚ) ≤ ((k : ℚ) + 1) / 8 :=
          div_nonneg (by linarith) (by norm_num)
        linarith
      · rw [div_le_iff₀ (by norm_num : (0 : ℚ) < 8)]
        linarith
  constructor
  · rw [order_bucket_schedule, List.countP_append, List.countP_map,
      countP_replicate_of_true 8 (0 : ℚ) _ (by norm_num),
      countP_congr_mem _ _ (fun (k : ℕ) => decide (k ≤ 6)) hcg,
      show (List.range 12).countP (fun (k : ℕ) => decide (k ≤ 6)) = 7 from by decide]
  · norm_num

/-- C6 (amended): `TokenBucket.consume` refills by
`min(capacity, tokens + Δt × refill)` and succeeds iff that covers the
request; `wait_for_token` admits at the earliest instant the tokens
suffice (failing iff that exceeds the timeout, and no earlier instant
would succeed); for 20 back-to-back order-bucket `(8, 8/s)` acquisitions
the 9th through 20th are delayed to `1/8 s` spacing, and at most 8 of
those delayed admissions fall in any half-open 1-second window — but a
window containing the initial 8-token burst holds up to 15 admissions,
so the claim's "no more than 8 in any 1-second window" holds only for
the delayed tail, not for the burst. -/
theorem token_bucket_spec :
    (∀ (b : BucketState) (now tokens : ℚ),
      ((consume b now tokens).1 = true ↔
        tokens ≤ min b.capacity (b.tokens + (now - b.last_refill) * b.refill_rate)) ∧
      (consume b now tokens).2.tokens =
        min b.capacity (b.tokens + (now - b.last_refill) * b.refill_rate) -
          (if tokens ≤ min b.capacity (b.tokens + (now - b.last_refill) * b.refill_rate)
            then tokens else 0) ∧
      (consume b now tokens).2.last_refill = now) ∧
    (∀ (b : BucketState) (now k timeout : ℚ), 0 < b.refill_rate → k ≤ b.capacity →
      ((wait_for_token b now k timeout).1 = true ↔ admitTime b now k - now < timeout) ∧
      (consume b (admitTime b now k) k).1 = true ∧
      (∀ t', now ≤ t' → t' < admitTime b now k → (consume b t' k).1 = false)) ∧
    greedyAdmissions (initBucket 8 8 0) 0 20 =
      List.replicate 8 (0 : ℚ) ++
        (List.range 12).map (fun (k : ℕ) => ((k : ℚ) + 1) / 8) ∧
    (∀ a : ℚ, ((greedyAdmissions (initBucket 8 8 0) 0 20).drop 8).countP
        (fun t => decide (a < t ∧ t ≤ a + 1)) ≤ 8) := by
  refine ⟨?_, ?_, order_bucket_schedule, ?_⟩
  · intro b now tokens
    unfold consume
    split_ifs with h
    · simp [h]
    · simp [h]
  · intro b now k timeout hr hk
    have hrne : b.refill_rate ≠ 0 := ne_of_gt hr
    refine ⟨?_, ?_, ?_⟩
    · unfold wait_for_token
      split_ifs with h <;> simp [h]
    · by_cases hI : k ≤ min b.capacity
          (b.tokens + (now - b.last_refill) * b.refill_rate)
      · have hAT : admitTime b now k = now := by
          simp only [admitTime]
          rw [if_pos hI]
        rw [hAT]
        simp only [consume]
        rw [if_pos hI]
      · have hminX : min b.capacity
            (b.tokens + (now - b.last_refill) * b.refill_rate) =
              b.tokens + (now - b.last_refill) * b.refill_rate := by
          push_neg at hI
          rcases le_total b.capacity
              (b.tokens + (now - b.last_refill) * b.refill_rate) with hc | hc
          · exfalso
            rw [min_eq_left hc] at hI
            linarith
          · exact min_eq_right hc
        have hAT : admitTime b now k = now +
            (k - (b.tokens + (now - b.last_refill) * b.refill_rate)) / b.refill_rate := by
          simp only [admitTime]
          rw [if_neg hI, hminX]
        rw [hAT]
        simp only [consume]
        have hcalc : b.tokens + (now +
            (k - (b.tokens + (now - b.last_refill) * b.refill_rate)) / b.refill_rate -
              b.last_refill) * b.refill_rate = k := by
          field_simp
          ring
        rw [hcalc, min_eq_right hk, if_pos (le_refl k)]
    · intro t' hnow hlt
      by_cases hI : k ≤ min b.capacity
          (b.tokens + (now - b.last_refill) * b.refill_rate)
      · exfalso
        have hAT : admitTime b now k = now := by
          simp only [admitTime]
          rw [if_pos hI]
        rw [hAT] at hlt
        linarith
      · have hminX : min b.capacity
            (b.tokens + (now - b.last_refill) * b.refill_rate) =
              b.tokens + (now - b.last_refill) * b.refill_rate := by
          push_neg at hI
          rcases le_total b.capacity
              (b.tokens + (now - b.last_refill) * b.refill_rate) with hc | hc
          · exfalso
            rw [min_eq_left hc] at hI
            linarith
          · exact min_eq_right hc
        have hAT : admitTime b now k = now +
            (k - (b.tokens + (now - b.last_refill) * b.refill_rate)) / b.refill_rate := by
          simp only [admitTime]
          rw [if_neg hI, hminX]
        rw [hAT] at hlt
        have hmul : (t' - now) * b.refill_rate <
            k - (b.tokens + (now - b.last_refill) * b.refill_rate) := by
          have hstep : t' - now <
              (k - (b.tokens + (now - b.last_refill) * b.refill_rate)) /
                b.refill_rate := by
            linarith
          calc (t' - now) * b.refill_rate
              < ((k - (b.tokens + (now - b.last_refill) * b.refill_rate)) /
                  b.refill_rate) * b.refill_rate :=
                mul_lt_mul_of_pos_right hstep hr
            _ = k - (b.tokens + (now - b.last_refill) * b.refill_rate) := by
                field_simp
        have h1 : b.tokens + (t' - b.last_refill) * b.refill_rate < k := by
          nlinarith [hmul]
        have h2 : min b.capacity (b.tokens + (t' - b.last_refill) * b.refill_rate) < k :=
          lt_of_le_of_lt (min_le_right _ _) h1
        simp only [consume]
        rw [if_neg (not_le.2 h2)]
  · intro a
    have hcg : ∀ k ∈ List.range 12,
        ((fun t => decide (a < t ∧ t ≤ a + 1)) ∘
            fun (k : ℕ) => ((k : ℚ) + 1) / 8) k =
          (fun (k : ℕ) => decide (Int.floor (8 * a) ≤ (k : ℤ) ∧
            (k : ℤ) ≤ Int.floor (8 * a) + 7)) k := by
      intro k _
      simp only [Function.comp_apply]
      refine decide_eq_decide.2 ?_
      have h8 : (0 : ℚ) < 8 := by norm_num
      constructor
      · rintro ⟨ha1, ha2⟩
        rw [lt_div_iff₀ h8] at ha1
        rw [div_le_iff₀ h8] at ha2
        constructor
        · have hf : Int.floor (8 * a) < (k : ℤ) + 1 := by
            apply Int.floor_lt.2
            push_cast
            linarith
          omega
        · have hf : (k : ℤ) + 1 ≤ Int.floor (8 * a + 8) := by
            apply Int.le_floor.2
            push_cast
            linarith
          have heq : Int.floor (8 * a + 8) = Int.floor (8 * a) + 8 := by
            exact_mod_cast Int.floor_add_int (8 * a) 8
          omega
      · rintro ⟨hb1, hb2⟩
        have hf1 : 8 * a < ((k : ℤ) : ℚ) + 1 := by
          have : Int.floor (8 * a) < (k : ℤ) + 1 := by omega
          have := Int.floor_lt.1 this
          push_cast at this ⊢
          linarith
        have hf2 : ((k : ℤ) : ℚ) + 1 ≤ 8 * a + 8 := by
          have hfl : (k : ℤ) + 1 ≤ Int.floor (8 * a) + 8 := by omega
          have heq : Int.floor (8 * a) + 8 = Int.floor (8 * a + 8) := by
            have h : Int.floor (8 * a + 8) = Int.floor (8 * a) + 8 := by
              exact_mod_cast Int.floor_add_int (8 * a) 8
            omega
          rw [heq] at hfl
          have := Int.le_floor.1 hfl
          push_cast at this ⊢
          linarith
        constructor
        · rw [lt_div_iff₀ h8]
          push_cast at hf1
          linarith
        · rw [div_le_iff₀ h8]
          push_cast at hf2
          linarith
    rw [order_bucket_schedule]
    have hdrop : (List.replicate 8 (0 : ℚ) ++
        (List.range 12).map (fun (k : ℕ) => ((k : ℚ) + 1) / 8)).drop 8 =
        (List.range 12).map (fun (k : ℕ) => ((k : ℚ) + 1) / 8) := by
      have h := List.drop_left (List.replicate 8 (0 : ℚ))
        ((List.range 12).map (fun (k : ℕ) => ((k : ℚ) + 1) / 8))
      simp only [List.length_replicate] at h
      exact h
    rw [hdrop, List.countP_map, countP_congr_mem _ _ _ hcg]
    exact countP_range_window (Int.floor (8 * a)) 12

/-- C6 witness: the order bucket admits a single-token request from the
full state immediately. -/
theorem token_bucket_spec_witness :
    (consume (initBucket 8 8 0) (admitTime (initBucket 8 8 0) 0 1) 1).1 = true :=
  (token_bucket_spec.2.1 (initBucket 8 8 0) 0 1 30 (by norm_num [initBucket])
    (by norm_num [initBucket])).2.1


end AutoCoin
